import Mathlib

/-!
Shallow embedding of the task_tracker program (src/main.rs).

Strings are modelled as `List Char`.  The hand-rolled serialization format
(`impl Display for Task` / `impl Display for TaskHandler` and
`TaskHandler::query_task_file`) is embedded with explicit split/trim
primitives that mirror the Rust standard-library string operations used by
the source.  `SystemTime` values are modelled as the number of seconds since
the Unix epoch (a `Nat`), which is exactly the representation the program
itself persists.  Fallible operations (`expect`, slice-index panics) are
modelled with `Option`, where `none` stands for a fatal panic.  Console
output (`println!`) is modelled by an explicit `Output` inductive.
-/

namespace TaskTracker

/-- Code points with the Unicode White_Space property, as recognised by
Rust's `char::is_whitespace` (used by `str::trim`). -/
def isWS (c : Char) : Bool :=
  c.toNat = 9 || c.toNat = 10 || c.toNat = 11 || c.toNat = 12 || c.toNat = 13 ||
  c.toNat = 32 || c.toNat = 133 || c.toNat = 160 || c.toNat = 5760 ||
  (8192 ≤ c.toNat && c.toNat ≤ 8202) || c.toNat = 8232 || c.toNat = 8233 ||
  c.toNat = 8239 || c.toNat = 8287 || c.toNat = 12288

/-- Model of Rust `str::trim_start`. -/
def trimLeft (s : List Char) : List Char := s.dropWhile isWS

/-- Model of Rust `str::trim_end`. -/
def trimRight (s : List Char) : List Char := (s.reverse.dropWhile isWS).reverse

/-- Model of Rust `str::trim` (trims whitespace from both ends). -/
def trim (s : List Char) : List Char := trimLeft (trimRight s)

/-- Model of Rust `str::trim_end_matches(c)` for a single char pattern. -/
def dropRightWhileChar (c : Char) (s : List Char) : List Char :=
  (s.reverse.dropWhile (fun x => x == c)).reverse

/-- Model of Rust `str::trim_matches(c)` for a single char pattern. -/
def trimMatchesChar (c : Char) (s : List Char) : List Char :=
  ((s.dropWhile (fun x => x == c)).reverse.dropWhile (fun x => x == c)).reverse

/-- Model of Rust `str::split` on a character class: splits at every
separator character, keeping empty segments (as Rust's `split` does). -/
def splitOnPred (p : Char → Bool) : List Char → List (List Char)
  | [] => [[]]
  | c :: cs =>
    if p c then [] :: splitOnPred p cs
    else
      match splitOnPred p cs with
      | [] => [[c]]
      | s :: ss => (c :: s) :: ss

/-- Model of `data.replace("\"", "")` (line 180): delete every
double-quote character. -/
def removeQuotes (s : List Char) : List Char := s.filter (fun c => c != '\x22')

/-- Decimal digit character for a digit value. -/
def digitChar (d : Nat) : Char := Char.ofNat (48 + d)

/-- Decimal rendering of a natural number, as produced by Rust's `Display`
for `u32`/`u64`. -/
def natStr (n : Nat) : List Char :=
  if n = 0 then ['0'] else (Nat.digits 10 n).reverse.map digitChar

/-- Value of a string of decimal digit characters. -/
def digitsVal (s : List Char) : Nat := s.foldl (fun a c => a * 10 + (c.toNat - 48)) 0

/-- The optional leading `+` accepted by Rust's unsigned-integer parse. -/
def stripPlus : List Char → List Char
  | '+' :: rest => rest
  | s => s

/-- Model of Rust `str::parse` for an unsigned integer type whose values
are the naturals below `bound`: an optional leading `+`, then one or more
ASCII digits, and the value must be representable (otherwise overflow
makes the parse fail). -/
def rustParseNat (bound : Nat) (s : List Char) : Option Nat :=
  let t := stripPlus s
  if t ≠ [] ∧ t.all Char.isDigit then
    if digitsVal t < bound then some (digitsVal t) else none
  else none

/-- `str::parse::<u32>`. -/
def parseU32 (s : List Char) : Option Nat := rustParseNat (2 ^ 32) s

/-- `str::parse::<u64>`. -/
def parseU64 (s : List Char) : Option Nat := rustParseNat (2 ^ 64) s

/-- The `Status` enum. -/
inductive Status where
  | Todo
  | InProgress
  | Done
deriving DecidableEq

/-- `impl Display for Status`. -/
def statusStr : Status → List Char
  | Status.Todo => "todo".toList
  | Status.InProgress => "in-progress".toList
  | Status.Done => "done".toList

/-- The `Task` struct.  `created_at`/`updated_at` are seconds since the
Unix epoch, the representation the program persists. -/
structure Task where
  id : Nat
  description : List Char
  status : Status
  created_at : Nat
  updated_at : Nat
deriving DecidableEq

/-- The `TaskHandler` struct: the task collection (a `HashMap<u32, Task>`,
modelled as an association list in iteration order) plus the dirty flag
`updated`. -/
structure TaskHandler where
  tasks : List (Nat × Task)
  updated : Bool
deriving DecidableEq

/-- One `println!` call of the program. -/
inductive Output where
  | taskAdded (id : Nat)
  | taskUpdated (id : Nat)
  | taskNotAvailable (id : Nat)
  | taskDeleted (id : Nat)
  | taskDeleteFailed (id : Nat)
  | idMismatch
  | invalidArgument
  | row (id : Nat) (description : List Char) (status : Status)
deriving DecidableEq

/-- `HashMap::contains_key`. -/
def containsKey (ts : List (Nat × Task)) (k : Nat) : Bool := ts.any (fun p => p.1 == k)

/-- `HashMap::get`. -/
def getTask : List (Nat × Task) → Nat → Option Task
  | [], _ => none
  | (k, t) :: rest, k' => if k = k' then some t else getTask rest k'

/-- `HashMap::insert`: replace the entry for the key if present, otherwise
add a new entry. -/
def insertTask : List (Nat × Task) → Nat → Task → List (Nat × Task)
  | [], k, t => [(k, t)]
  | (k', t') :: rest, k, t =>
    if k' = k then (k, t) :: rest else (k', t') :: insertTask rest k t

/-- `HashMap::remove`. -/
def removeKey : List (Nat × Task) → Nat → List (Nat × Task)
  | [], _ => []
  | (k', t') :: rest, k => if k' = k then rest else (k', t') :: removeKey rest k

/-- The id-search loop of `TaskHandler::add` (`while self.tasks.contains_key(&id)
{ id += 1 }`), with explicit fuel.  `firstFreeId` supplies enough fuel for the
loop to reach the first free id, so the fuelled function computes exactly what
the unbounded Rust loop computes (`add_assigns_smallest_free_id` proves the
characterising property). -/
def firstFreeFrom (ts : List (Nat × Task)) : Nat → Nat → Nat
  | 0, i => i
  | fuel + 1, i => if containsKey ts i then firstFreeFrom ts fuel (i + 1) else i

/-- The id chosen by `TaskHandler::add`. -/
def firstFreeId (ts : List (Nat × Task)) : Nat := firstFreeFrom ts (ts.length + 1) 0

/-- `TaskHandler::add` (lines 82-98).  `now` models `SystemTime::now()`. -/
def TaskHandler.add (h : TaskHandler) (description : List Char) (now : Nat) :
    TaskHandler × List Output :=
  let id := firstFreeId h.tasks
  (⟨insertTask h.tasks id ⟨id, description, Status.Todo, now, now⟩, true⟩,
    [Output.taskAdded id])

/-- `TaskHandler::update` (lines 100-116). -/
def TaskHandler.update (h : TaskHandler) (id : Nat) (description : List Char) (now : Nat) :
    TaskHandler × List Output :=
  match getTask h.tasks id with
  | some task =>
      (⟨insertTask h.tasks id ⟨id, description, task.status, task.created_at, now⟩, true⟩,
        [Output.taskUpdated id])
  | none => (h, [Output.taskNotAvailable id])

/-- `TaskHandler::mark_in_progress` (lines 118-134). -/
def TaskHandler.mark_in_progress (h : TaskHandler) (id : Nat) (now : Nat) :
    TaskHandler × List Output :=
  match getTask h.tasks id with
  | some task =>
      (⟨insertTask h.tasks id
          ⟨id, task.description, Status.InProgress, task.created_at, now⟩, true⟩,
        [Output.taskUpdated id])
  | none => (h, [Output.taskNotAvailable id])

/-- `TaskHandler::mark_done` (lines 136-152). -/
def TaskHandler.mark_done (h : TaskHandler) (id : Nat) (now : Nat) :
    TaskHandler × List Output :=
  match getTask h.tasks id with
  | some task =>
      (⟨insertTask h.tasks id
          ⟨id, task.description, Status.Done, task.created_at, now⟩, true⟩,
        [Output.taskUpdated id])
  | none => (h, [Output.taskNotAvailable id])

/-- The filter condition of `TaskHandler::list`: a task is skipped iff a
filter is present and the status differs. -/
def keepTask (filter : Option Status) (t : Task) : Bool :=
  match filter with
  | some st => t.status == st
  | none => true

/-- `TaskHandler::list` (lines 154-165): the printed table rows (the constant
header lines are omitted).  Takes `self` immutably; it cannot change the
handler. -/
def TaskHandler.list (h : TaskHandler) (filter : Option Status) : List Output :=
  ((h.tasks.map Prod.snd).filter (keepTask filter)).map
    (fun t => Output.row t.id t.description t.status)

/-- `TaskHandler::delete` (lines 167-174). -/
def TaskHandler.delete (h : TaskHandler) (id : Nat) : TaskHandler × List Output :=
  if containsKey h.tasks id then
    (⟨removeKey h.tasks id, true⟩, [Output.taskDeleted id])
  else (h, [Output.taskDeleteFailed id])

/-- `impl Display for Task` (lines 37-56), after substituting the persisted
seconds-since-epoch values. -/
def taskStr (t : Task) : List Char :=
  "\n\x22id\x22:".toList ++ natStr t.id ++
  ",\n\x22description\x22: \x22".toList ++ t.description ++
  "\x22,\n\x22status\x22: \x22".toList ++ statusStr t.status ++
  "\x22,\n\x22created_at\x22: ".toList ++ natStr t.created_at ++
  ",\n\x22updated_at\x22: ".toList ++ natStr t.updated_at ++
  "\n".toList

/-- `impl Display for TaskHandler` (lines 64-78): one record per task in
iteration order, separated by `",\n"`, with a final `"\n"` after the last. -/
def recordsStr : List (Nat × Task) → List Char
  | [] => []
  | (k, t) :: rest =>
      "\n\x22".toList ++ natStr k ++ "\x22 : \x7b ".toList ++ taskStr t ++ " \x7d".toList ++
      (if rest.isEmpty then "\n".toList else ",\n".toList) ++ recordsStr rest

/-- The full file text written by `main` (line 335):
`writeln!(file, "{{\n \"tasks\": {{ {} }} \n }}", tasks)`. -/
def encodeFile (ts : List (Nat × Task)) : List Char :=
  "\x7b\n \x22tasks\x22: \x7b ".toList ++ recordsStr ts ++ " \x7d \n \x7d\n".toList

/-- A `{` or `}` character (the split class of line 182). -/
def isBrace (c : Char) : Bool := c == '\x7b' || c == '\x7d'

/-- The per-segment cleanup of line 183:
`p.trim().trim_end_matches(':').trim()`. -/
def cleanSeg (s : List Char) : List Char := trim (dropRightWhileChar ':' (trim s))

/-- Lines 180-185: strip quotes, split on braces, clean up each segment and
drop the empty ones. -/
def segmentsOf (data : List Char) : List (List Char) :=
  ((splitOnPred isBrace (removeQuotes data)).map cleanSeg).filter (fun s => !s.isEmpty)

/-- Line 191: `p.trim().split(':').collect::<Vec<_>>()[1]` — `none` models the
index panic when the part has no colon. -/
def colonField (p : List Char) : Option (List Char) :=
  (splitOnPred (fun c => c == ':') (trim p)).get? 1

/-- The `map`/`collect` of lines 189-192 over all comma-separated parts. -/
def mapColonFields : List (List Char) → Option (List (List Char))
  | [] => some []
  | x :: xs => do
      let y ← colonField x
      let ys ← mapColonFields xs
      pure (y :: ys)

/-- The status match of lines 207-212; any unrecognised text maps to `Todo`. -/
def parseStatus (s : List Char) : Status :=
  if s = "todo".toList then Status.Todo
  else if s = "in-progress".toList then Status.InProgress
  else if s = "done".toList then Status.Done
  else Status.Todo

/-- Lines 189-231: parse one body segment into a `Task`, given the id taken
from the preceding key segment.  The Bool records whether the
"id and inner id don't match" diagnostic is printed.  The task is built with
the key id; the embedded id is only compared. -/
def parseBody (keyId : Nat) (b : List Char) : Option (Task × Bool) := do
  let tp ← mapColonFields (splitOnPred (fun c => c == ',') b)
  let f0 ← tp.get? 0
  let f1 ← tp.get? 1
  let f2 ← tp.get? 2
  let f3 ← tp.get? 3
  let f4 ← tp.get? 4
  let innerId ← parseU32 (trim f0)
  let description := trim f1
  let status := parseStatus (trim f2)
  let created_at ← parseU64 (trim f3)
  let updated_at ← parseU64 (trim f4)
  pure (⟨keyId, description, status, created_at, updated_at⟩, keyId != innerId)

/-- Lines 234-238: parse a key segment
(`id_task.trim_matches(',').trim().parse::<u32>()`). -/
def keyOf (s : List Char) : Option Nat := parseU32 (trim (trimMatchesChar ',' s))

/-- The walk of lines 186-240 over the segment list (after `skip(1)`):
even positions are key segments, odd positions body segments.  `none` models
any `expect`/index panic; the accumulated outputs record the mismatch
diagnostics printed so far. -/
def decodeLoop : List (List Char) → List (Nat × Task) → List Output →
    Option (List (Nat × Task) × List Output)
  | [], acc, out => some (acc, out)
  | k :: rest, acc, out => do
      let kid ← keyOf k
      match rest with
      | [] => pure (acc, out)
      | b :: rest' => do
          let (task, mismatch) ← parseBody kid b
          decodeLoop rest' (insertTask acc kid task)
            (out ++ if mismatch then [Output.idMismatch] else [])

/-- `TaskHandler::query_task_file` (lines 176-247).  `none` as the argument
models an absent/unreadable file (the `if let Ok(data)` guard); the result
`none` models a fatal parse panic. -/
def query_task_file (file : Option (List Char)) : Option (TaskHandler × List Output) :=
  match file with
  | none => some (⟨[], false⟩, [])
  | some data => do
      let (ts, out) ← decodeLoop (segmentsOf data).tail [] []
      pure (⟨ts, false⟩, out)

/-- One CLI command, after argument parsing. -/
inductive Cmd where
  | add (description : List Char)
  | update (id : Nat) (description : List Char)
  | delete (id : Nat)
  | listCmd (filter : Option Status)
  | markInProgress (id : Nat)
  | markDone (id : Nat)
  | invalid
deriving DecidableEq

/-- The command dispatch of `main` (lines 263-327). -/
def dispatch (h : TaskHandler) (c : Cmd) (now : Nat) : TaskHandler × List Output :=
  match c with
  | Cmd.add d => h.add d now
  | Cmd.update id d => h.update id d now
  | Cmd.delete id => h.delete id
  | Cmd.listCmd f => (h, h.list f)
  | Cmd.markInProgress id => h.mark_in_progress id now
  | Cmd.markDone id => h.mark_done id now
  | Cmd.invalid => (h, [Output.invalidArgument])

/-- One whole invocation of `main`: load the store, run one command, and
rewrite the file iff the dirty flag is set (lines 250-337).  The last
component is the file written back (`none` = no write). -/
def mainRun (file : Option (List Char)) (c : Cmd) (now : Nat) :
    Option (TaskHandler × List Output × Option (List Char)) := do
  let (h, out0) ← query_task_file file
  let (h2, out) := dispatch h c now
  pure (h2, out0 ++ out, if h2.updated then some (encodeFile h2.tasks) else none)

/-! ### Toolbox: facts about the string primitives -/

/-- Prepend characters to the first segment of a split result. -/
def consHead (xs : List Char) : List (List Char) → List (List Char)
  | [] => [xs]
  | s :: ss => (xs ++ s) :: ss

/-- The invariant of claim C10: every map key equals the id stored in its task. -/
def KeysOk (ts : List (Nat × Task)) : Prop := ∀ p ∈ ts, p.2.id = p.1

instance (ts : List (Nat × Task)) : Decidable (KeysOk ts) := by
  unfold KeysOk
  infer_instance

/-- Description texts containing none of the structural delimiters
`{`, `}`, `,`, `:` (the precondition of the round-trip properties). -/
def goodDesc (s : List Char) : Bool :=
  s.all (fun c => !(isBrace c) && !(c == ',') && !(c == ':'))

/-- The five-field body of one record, as it stands in the store text after
quote removal, between the record's braces and stripped of surrounding
whitespace.  This is exactly what the decoder's field loop consumes. -/
def bodyCore (t : Task) : List Char :=
  "id:".toList ++ natStr t.id ++
  ",\ndescription: ".toList ++ removeQuotes t.description ++
  ",\nstatus: ".toList ++ statusStr t.status ++
  ",\ncreated_at: ".toList ++ natStr t.created_at ++
  ",\nupdated_at: ".toList ++ natStr t.updated_at

/-- `removeQuotes (recordsStr ts)` in explicit form. -/
def recordsQF : List (Nat × Task) → List Char
  | [] => []
  | (k, t) :: rest =>
      "\n".toList ++ natStr k ++ " : \x7b ".toList ++ ('\n' :: (bodyCore t ++ ['\n'])) ++
      " \x7d".toList ++ (if rest.isEmpty then "\n".toList else ",\n".toList) ++
      recordsQF rest

/-- The raw segments that the brace split produces for the record list, given
the pending text `pre` carried over from before the current record. -/
def rawSegs : List Char → List (Nat × Task) → List (List Char)
  | pre, [] => [pre ++ [' '], " \n ".toList, "\n".toList]
  | pre, (k, t) :: rest =>
      (pre ++ "\n".toList ++ natStr k ++ " : ".toList) ::
      (" \n".toList ++ bodyCore t ++ "\n ".toList) ::
      rawSegs (if rest.isEmpty then "\n".toList else ",\n".toList) rest

/-- The cleaned key segment as it reaches the decode walk: the very first
record's key is bare; later keys keep the record separator in front. -/
def keySeg (first : Bool) (k : Nat) : List Char :=
  if first then natStr k else ",\n\n".toList ++ natStr k

/-- The cleaned, non-empty segments the decode walk processes after the
initial `tasks` wrapper segment. -/
def walkSegs : Bool → List (Nat × Task) → List (List Char)
  | _, [] => []
  | first, (k, t) :: rest => keySeg first k :: bodyCore t :: walkSegs false rest

/-- What one record decodes back to: the key id becomes the task id, and the
description comes back quote-stripped and whitespace-trimmed. -/
def decodedTask (k : Nat) (t : Task) : Task :=
  ⟨k, trim (removeQuotes t.description), t.status, t.created_at, t.updated_at⟩

/-- The mismatch diagnostics printed while decoding, one per record whose
key differs from the embedded id. -/
def mismatchOuts : List (Nat × Task) → List Output
  | [] => []
  | p :: rest => (if p.1 != p.2.id then [Output.idMismatch] else []) ++ mismatchOuts rest

/-- The representability side conditions carried by any collection the Rust
program can actually hold (`u32` keys and ids, `u64` timestamps), plus the
delimiter-free-description hypothesis of the round-trip properties. -/
def goodEntry (p : Nat × Task) : Prop :=
  p.1 < 2 ^ 32 ∧ p.2.id < 2 ^ 32 ∧ p.2.created_at < 2 ^ 64 ∧
  p.2.updated_at < 2 ^ 64 ∧ goodDesc p.2.description = true

instance (p : Nat × Task) : Decidable (goodEntry p) := by
  unfold goodEntry
  infer_instance

/-- The decode walk reaches a numeric field that fails to parse: a key
segment whose id text is not a valid `u32`, or a body whose five fields are
structurally extractable but whose embedded id / `created_at` / `updated_at`
text is not a valid unsigned integer.  (A body that is structurally broken —
a missing colon or fewer than five fields — also panics in the source, but
that is not a numeric-field failure, so it is not flagged here.) -/
def badNumeric : List (List Char) → Bool
  | [] => false
  | k :: rest =>
    if (keyOf k).isNone then true
    else match rest with
      | [] => false
      | b :: rest' =>
        match mapColonFields (splitOnPred (fun c => c == ',') b) with
        | none => false
        | some tp =>
          match tp.get? 0, tp.get? 1, tp.get? 2, tp.get? 3, tp.get? 4 with
          | some f0, some _, some _, some f3, some f4 =>
            if (parseU32 (trim f0)).isNone || (parseU64 (trim f3)).isNone ||
                (parseU64 (trim f4)).isNone then true
            else badNumeric rest'
          | _, _, _, _, _ => false

/-- Description texts free of the double-quote character. -/
def noQuote (s : List Char) : Bool := s.all (fun c => c != '\x22')

theorem splitOnPred_ne_nil (p : Char → Bool) (l : List Char) : splitOnPred p l ≠ [] := by
  induction l with
  | nil => simp [splitOnPred]
  | cons c cs ih =>
    by_cases h : p c
    · simp [splitOnPred, h]
    · simp only [splitOnPred, h]
      cases hs : splitOnPred p cs <;> simp

theorem splitOnPred_cons_sep {p : Char → Bool} {c : Char} (h : p c = true) (l : List Char) :
    splitOnPred p (c :: l) = [] :: splitOnPred p l := by
  simp [splitOnPred, h]

theorem splitOnPred_cons_notsep {p : Char → Bool} {c : Char} (h : p c = false) (l : List Char) :
    splitOnPred p (c :: l) = consHead [c] (splitOnPred p l) := by
  simp only [splitOnPred, h]
  cases hs : splitOnPred p l with
  | nil => simp [consHead]
  | cons s ss => simp [consHead]

theorem consHead_append (xs ys : List Char) (L : List (List Char)) :
    consHead (xs ++ ys) L = consHead xs (consHead ys L) := by
  cases L <;> simp [consHead]

theorem splitOnPred_append_nosep {p : Char → Bool} {xs : List Char}
    (h : ∀ c ∈ xs, p c = false) (l : List Char) :
    splitOnPred p (xs ++ l) = consHead xs (splitOnPred p l) := by
  induction xs with
  | nil =>
    cases hs : splitOnPred p l with
    | nil => exact absurd hs (splitOnPred_ne_nil p l)
    | cons s ss => simp [consHead, hs]
  | cons c cs ih =>
    have hc : p c = false := h c (by simp)
    have hcs : ∀ x ∈ cs, p x = false := fun x hx => h x (by simp [hx])
    calc splitOnPred p ((c :: cs) ++ l) = splitOnPred p (c :: (cs ++ l)) := by simp
    _ = consHead [c] (splitOnPred p (cs ++ l)) := splitOnPred_cons_notsep hc _
    _ = consHead [c] (consHead cs (splitOnPred p l)) := by rw [ih hcs]
    _ = consHead ([c] ++ cs) (splitOnPred p l) := (consHead_append _ _ _).symm
    _ = consHead (c :: cs) (splitOnPred p l) := rfl

theorem splitOnPred_all_notsep {p : Char → Bool} {xs : List Char}
    (h : ∀ c ∈ xs, p c = false) : splitOnPred p xs = [xs] := by
  have h2 := splitOnPred_append_nosep h []
  simpa [splitOnPred, consHead] using h2

/-- One full chunk up to a separator. -/
theorem splitOnPred_chunk {p : Char → Bool} {xs : List Char} {c : Char}
    (hxs : ∀ x ∈ xs, p x = false) (hc : p c = true) (rest : List Char) :
    splitOnPred p (xs ++ c :: rest) = xs :: splitOnPred p rest := by
  rw [splitOnPred_append_nosep hxs, splitOnPred_cons_sep hc]
  simp [consHead]

theorem dropWhileAppend (p : Char → Bool) (l m : List Char) :
    (l ++ m).dropWhile p =
      if l.dropWhile p = [] then m.dropWhile p else l.dropWhile p ++ m := by
  induction l with
  | nil => simp
  | cons c cs ih =>
    by_cases h : p c
    · simp [List.dropWhile_cons, h, ih]
    · simp [List.dropWhile_cons, h]

theorem dropWhile_all_false {p : Char → Bool} {l : List Char}
    (h : ∀ c ∈ l, p c = false) : l.dropWhile p = l := by
  induction l with
  | nil => simp
  | cons c cs ih =>
    rw [List.dropWhile_cons]
    simp [h c (by simp), ih fun x hx => h x (by simp [hx])]

theorem dropWhile_all_true {p : Char → Bool} {l : List Char}
    (h : ∀ c ∈ l, p c = true) : l.dropWhile p = [] :=
  List.dropWhile_eq_nil_iff.mpr h

/-- The generic right-side drop: `(l.reverse.dropWhile p).reverse` leaves a
list alone when it ends with a character not matching `p`. -/
theorem revDrop_append_of_neg {p : Char → Bool} {l m : List Char} (hm : m ≠ [])
    (h : ∀ c ∈ m, p c = false) :
    ((l ++ m).reverse.dropWhile p).reverse = l ++ m := by
  have key : (l ++ m).reverse.dropWhile p = (l ++ m).reverse := by
    rw [List.reverse_append]
    cases hr : m.reverse with
    | nil =>
      simp only [List.reverse_eq_nil_iff] at hr
      exact absurd hr hm
    | cons c cs =>
      have hcm : c ∈ m := by
        have h2 : c ∈ m.reverse := by rw [hr]; simp
        simpa using h2
      rw [List.cons_append, List.dropWhile_cons]
      simp [h c hcm]
  rw [key, List.reverse_reverse]

theorem revDrop_append_sep {p : Char → Bool} {c : Char} (h : p c = true) (l : List Char) :
    ((l ++ [c]).reverse.dropWhile p).reverse = (l.reverse.dropWhile p).reverse := by
  rw [List.reverse_append]
  simp [List.dropWhile_cons, h]

theorem trimRight_append_of_notWS {l m : List Char} (hm : m ≠ [])
    (h : ∀ c ∈ m, isWS c = false) : trimRight (l ++ m) = l ++ m :=
  revDrop_append_of_neg hm h

theorem trimRight_of_notWS {l : List Char} (h : ∀ c ∈ l, isWS c = false) :
    trimRight l = l := by
  unfold trimRight
  rw [dropWhile_all_false fun c hc => h c (by simpa using hc)]
  exact List.reverse_reverse l

theorem trimRight_append (l m : List Char) :
    trimRight (l ++ m) = if trimRight m = [] then trimRight l else l ++ trimRight m := by
  unfold trimRight
  rw [List.reverse_append, dropWhileAppend]
  by_cases h : m.reverse.dropWhile isWS = []
  · simp [h]
  · rw [if_neg h, if_neg (by simpa using h), List.reverse_append, List.reverse_reverse]

theorem trimRight_eq_nil_iff {l : List Char} : trimRight l = [] ↔ ∀ c ∈ l, isWS c = true := by
  unfold trimRight
  rw [List.reverse_eq_nil_iff, List.dropWhile_eq_nil_iff]
  constructor
  · intro h c hc
    exact h c (by simpa using hc)
  · intro h c hc
    exact h c (by simpa using hc)

theorem trimRight_idem (l : List Char) : trimRight (trimRight l) = trimRight l := by
  unfold trimRight
  rw [List.reverse_reverse]
  have h : (l.reverse.dropWhile isWS).dropWhile isWS = l.reverse.dropWhile isWS := by
    cases hr : l.reverse.dropWhile isWS with
    | nil => simp
    | cons c cs =>
      have hc : isWS c = false := by
        have h2 := List.head?_dropWhile_not isWS l.reverse
        rw [hr] at h2
        simpa using h2
      rw [List.dropWhile_cons]
      simp [hc]
  rw [h]

theorem trimLeft_cons_of_ws {c : Char} (h : isWS c = true) (l : List Char) :
    trimLeft (c :: l) = trimLeft l := by
  unfold trimLeft
  rw [List.dropWhile_cons]
  simp [h]

theorem trimLeft_cons_of_notWS {c : Char} (h : isWS c = false) (l : List Char) :
    trimLeft (c :: l) = c :: l := by
  unfold trimLeft
  rw [List.dropWhile_cons]
  simp [h]

theorem trimLeft_append_of_ws {pre : List Char} (h : ∀ c ∈ pre, isWS c = true)
    (l : List Char) : trimLeft (pre ++ l) = trimLeft l := by
  induction pre with
  | nil => simp
  | cons c cs ih =>
    rw [List.cons_append, trimLeft_cons_of_ws (h c (by simp))]
    exact ih fun x hx => h x (by simp [hx])

theorem trimLeft_of_notWS {l : List Char} (h : ∀ c ∈ l, isWS c = false) :
    trimLeft l = l :=
  dropWhile_all_false h

theorem trim_of_notWS {l : List Char} (h : ∀ c ∈ l, isWS c = false) : trim l = l := by
  unfold trim
  rw [trimRight_of_notWS h, trimLeft_of_notWS h]

/-- Trimming strips an all-whitespace prefix and suffix around a core that is
already trimmed on both sides. -/
theorem trim_sandwich {pre core suf : List Char} (hpre : ∀ c ∈ pre, isWS c = true)
    (hsuf : ∀ c ∈ suf, isWS c = true) (hl : trimLeft core = core)
    (hr : trimRight core = core) : trim (pre ++ (core ++ suf)) = core := by
  have hsuf0 : trimRight suf = [] := trimRight_eq_nil_iff.mpr hsuf
  have h1 : trimRight (core ++ suf) = core := by
    rw [trimRight_append, hsuf0, if_pos rfl, hr]
  unfold trim
  rw [show pre ++ (core ++ suf) = (pre ++ core) ++ suf by simp,
    trimRight_append, hsuf0, if_pos rfl, trimRight_append]
  by_cases hc : trimRight core = []
  · rw [if_pos hc, trimRight_eq_nil_iff.mpr hpre]
    rw [hc] at hr
    simp [hr.symm, trimLeft]
  · rw [if_neg hc, hr, trimLeft_append_of_ws hpre, hl]

theorem trim_cons_of_ws {c : Char} (h : isWS c = true) (l : List Char) :
    trim (c :: l) = trim l := by
  unfold trim
  rw [show (c :: l) = [c] ++ l from rfl, trimRight_append]
  by_cases hl : trimRight l = []
  · rw [if_pos hl, hl]
    have h1 : trimRight [c] = [] := trimRight_eq_nil_iff.mpr (by simpa using h)
    rw [h1]
  · rw [if_neg hl]
    rw [show ([c] ++ trimRight l) = c :: trimRight l from rfl,
      trimLeft_cons_of_ws h]

theorem trim_trimRight (l : List Char) : trim (trimRight l) = trim l := by
  unfold trim
  rw [trimRight_idem]

/-! ### Toolbox: decimal digits and number parsing -/

theorem digitChar_props {d : Nat} (h : d < 10) :
    isWS (digitChar d) = false ∧ isBrace (digitChar d) = false ∧
    ((digitChar d) == ',') = false ∧ ((digitChar d) == ':') = false ∧
    ((digitChar d) != '\x22') = true ∧ (digitChar d).isDigit = true ∧
    digitChar d ≠ '+' := by
  interval_cases d <;> decide

theorem digitChar_toNat {d : Nat} (h : d < 10) : (digitChar d).toNat = 48 + d := by
  interval_cases d <;> decide

theorem natStr_mem {n : Nat} {c : Char} (h : c ∈ natStr n) :
    ∃ d, d < 10 ∧ c = digitChar d := by
  unfold natStr at h
  by_cases h0 : n = 0
  · rw [if_pos h0] at h
    simp at h
    exact ⟨0, by norm_num, by rw [h]; rfl⟩
  · rw [if_neg h0] at h
    simp only [List.mem_map, List.mem_reverse] at h
    obtain ⟨d, hd, rfl⟩ := h
    exact ⟨d, Nat.digits_lt_base (by norm_num) hd, rfl⟩

theorem natStr_ne_nil (n : Nat) : natStr n ≠ [] := by
  unfold natStr
  by_cases h0 : n = 0
  · simp [h0]
  · rw [if_neg h0]
    simp [Nat.digits_ne_nil_iff_ne_zero.mpr h0]

theorem natStr_notWS (n : Nat) : ∀ c ∈ natStr n, isWS c = false := by
  intro c hc
  obtain ⟨d, hd, rfl⟩ := natStr_mem hc
  exact (digitChar_props hd).1

theorem natStr_notBrace (n : Nat) : ∀ c ∈ natStr n, isBrace c = false := by
  intro c hc
  obtain ⟨d, hd, rfl⟩ := natStr_mem hc
  exact (digitChar_props hd).2.1

theorem natStr_notComma (n : Nat) : ∀ c ∈ natStr n, (c == ',') = false := by
  intro c hc
  obtain ⟨d, hd, rfl⟩ := natStr_mem hc
  exact (digitChar_props hd).2.2.1

theorem natStr_notColon (n : Nat) : ∀ c ∈ natStr n, (c == ':') = false := by
  intro c hc
  obtain ⟨d, hd, rfl⟩ := natStr_mem hc
  exact (digitChar_props hd).2.2.2.1

theorem natStr_notQuote (n : Nat) : ∀ c ∈ natStr n, (c != '\x22') = true := by
  intro c hc
  obtain ⟨d, hd, rfl⟩ := natStr_mem hc
  exact (digitChar_props hd).2.2.2.2.1

theorem natStr_isDigit (n : Nat) : ∀ c ∈ natStr n, c.isDigit = true := by
  intro c hc
  obtain ⟨d, hd, rfl⟩ := natStr_mem hc
  exact (digitChar_props hd).2.2.2.2.2.1

theorem removeQuotes_natStr (n : Nat) : removeQuotes (natStr n) = natStr n := by
  unfold removeQuotes
  rw [List.filter_eq_self]
  exact natStr_notQuote n

theorem trimLeft_natStr_append (k : Nat) (l : List Char) :
    trimLeft (natStr k ++ l) = natStr k ++ l := by
  cases hs : natStr k with
  | nil => exact absurd hs (natStr_ne_nil k)
  | cons c cs =>
    have hc : c ∈ natStr k := by rw [hs]; simp
    rw [List.cons_append, trimLeft_cons_of_notWS (natStr_notWS k c hc)]

theorem trim_natStr (n : Nat) : trim (natStr n) = natStr n :=
  trim_of_notWS (natStr_notWS n)

theorem foldl_digits (ds : List Nat) (h : ∀ d ∈ ds, d < 10) (acc : Nat) :
    (ds.map digitChar).foldl (fun a c => a * 10 + (c.toNat - 48)) acc
      = acc * 10 ^ ds.length + Nat.ofDigits 10 ds.reverse := by
  induction ds generalizing acc with
  | nil => simp [Nat.ofDigits]
  | cons d rest ih =>
    have hd : d < 10 := h d (by simp)
    rw [List.map_cons, List.foldl_cons, digitChar_toNat hd]
    have hv : acc * 10 + (48 + d - 48) = acc * 10 + d := by omega
    rw [hv, ih (fun x hx => h x (by simp [hx])) (acc * 10 + d),
      List.reverse_cons, Nat.ofDigits_append]
    simp [Nat.ofDigits_singleton, pow_succ]
    ring

theorem digitsVal_natStr (n : Nat) : digitsVal (natStr n) = n := by
  unfold digitsVal natStr
  by_cases h0 : n = 0
  · simp [h0]
  · rw [if_neg h0,
      foldl_digits _ (fun d hd => Nat.digits_lt_base (by norm_num) (by simpa using hd)) 0]
    simp [Nat.ofDigits_digits]

theorem stripPlus_cons_ne {c : Char} (h : c ≠ '+') (cs : List Char) :
    stripPlus (c :: cs) = c :: cs := by
  unfold stripPlus
  split
  · rename_i heq
    rw [List.cons.injEq] at heq
    exact absurd heq.1 h
  · rfl

theorem rustParseNat_natStr {bound n : Nat} (h : n < bound) :
    rustParseNat bound (natStr n) = some n := by
  have hsp : stripPlus (natStr n) = natStr n := by
    cases hs : natStr n with
    | nil => rfl
    | cons c cs =>
      have hc : c ∈ natStr n := by rw [hs]; simp
      obtain ⟨d, hd, rfl⟩ := natStr_mem hc
      exact stripPlus_cons_ne (digitChar_props hd).2.2.2.2.2.2 cs
  unfold rustParseNat
  simp only [hsp]
  rw [if_pos ⟨natStr_ne_nil n, List.all_eq_true.mpr (natStr_isDigit n)⟩,
    digitsVal_natStr, if_pos h]

theorem parseU32_natStr {n : Nat} (h : n < 2 ^ 32) : parseU32 (natStr n) = some n :=
  rustParseNat_natStr h

theorem parseU64_natStr {n : Nat} (h : n < 2 ^ 64) : parseU64 (natStr n) = some n :=
  rustParseNat_natStr h

theorem parseU32_trim_natStr {n : Nat} (h : n < 2 ^ 32) :
    parseU32 (trim (natStr n)) = some n := by
  rw [trim_natStr]
  exact parseU32_natStr h

theorem parseU64_trim_natStr {n : Nat} (h : n < 2 ^ 64) :
    parseU64 (trim (natStr n)) = some n := by
  rw [trim_natStr]
  exact parseU64_natStr h

/-! ### Toolbox: the task map -/

theorem containsKey_append (a b : List (Nat × Task)) (k : Nat) :
    containsKey (a ++ b) k = (containsKey a k || containsKey b k) := by
  unfold containsKey
  simp

theorem containsKey_eq_isSome (ts : List (Nat × Task)) (k : Nat) :
    containsKey ts k = (getTask ts k).isSome := by
  induction ts with
  | nil => simp [containsKey, getTask]
  | cons p rest ih =>
    obtain ⟨k', t⟩ := p
    by_cases h : k' = k
    · simp [containsKey, getTask, h]
    · simp only [containsKey, getTask, List.any_cons] at ih ⊢
      rw [if_neg h]
      simp only [ih]
      simp [h]

theorem getTask_insert_self (ts : List (Nat × Task)) (k : Nat) (t : Task) :
    getTask (insertTask ts k t) k = some t := by
  induction ts with
  | nil => simp [insertTask, getTask]
  | cons p rest ih =>
    obtain ⟨k', t'⟩ := p
    by_cases h : k' = k
    · simp [insertTask, getTask, h]
    · simp [insertTask, getTask, h, ih]

theorem getTask_insert_ne (ts : List (Nat × Task)) (k j : Nat) (t : Task) (h : j ≠ k) :
    getTask (insertTask ts k t) j = getTask ts j := by
  have hkj : ¬ k = j := fun hh => h hh.symm
  induction ts with
  | nil => simp [insertTask, getTask, hkj]
  | cons p rest ih =>
    obtain ⟨k', t'⟩ := p
    by_cases hk : k' = k
    · subst hk
      simp [insertTask, getTask, hkj]
    · rw [insertTask, if_neg hk, getTask, getTask]
      by_cases hj : k' = j
      · rw [if_pos hj, if_pos hj]
      · rw [if_neg hj, if_neg hj, ih]

theorem insertTask_append_of_not_mem (ts : List (Nat × Task)) (k : Nat) (t : Task)
    (h : containsKey ts k = false) : insertTask ts k t = ts ++ [(k, t)] := by
  induction ts with
  | nil => simp [insertTask]
  | cons p rest ih =>
    obtain ⟨k', t'⟩ := p
    simp only [containsKey, List.any_cons, Bool.or_eq_false_iff] at h
    have hk : k' ≠ k := by
      intro hh
      simp [hh] at h
    rw [insertTask, if_neg hk, List.cons_append,
      ih (by simpa [containsKey] using h.2)]

theorem KeysOk_insert {ts : List (Nat × Task)} {k : Nat} {t : Task}
    (h : KeysOk ts) (ht : t.id = k) : KeysOk (insertTask ts k t) := by
  induction ts with
  | nil =>
    intro p hp
    simp [insertTask] at hp
    simp [hp, ht]
  | cons q rest ih =>
    obtain ⟨k', t'⟩ := q
    by_cases hk : k' = k
    · rw [insertTask, if_pos hk]
      intro p hp
      rcases List.mem_cons.mp hp with h1 | h2
      · simp [h1, ht]
      · exact h p (List.mem_cons_of_mem _ h2)
    · rw [insertTask, if_neg hk]
      intro p hp
      rcases List.mem_cons.mp hp with h1 | h2
      · exact h p (by simp [h1])
      · exact ih (fun q hq => h q (List.mem_cons_of_mem _ hq)) p h2

theorem KeysOk_removeKey {ts : List (Nat × Task)} {k : Nat} (h : KeysOk ts) :
    KeysOk (removeKey ts k) := by
  induction ts with
  | nil => intro p hp; simp [removeKey] at hp
  | cons q rest ih =>
    obtain ⟨k', t'⟩ := q
    by_cases hk : k' = k
    · rw [removeKey, if_pos hk]
      exact fun p hp => h p (List.mem_cons_of_mem _ hp)
    · rw [removeKey, if_neg hk]
      intro p hp
      rcases List.mem_cons.mp hp with h1 | h2
      · exact h p (by simp [h1])
      · exact ih (fun q hq => h q (List.mem_cons_of_mem _ hq)) p h2

/-! ### The id allocation loop -/

theorem firstFreeFrom_spec (ts : List (Nat × Task)) :
    ∀ fuel i, (∃ j, i ≤ j ∧ j < i + fuel ∧ containsKey ts j = false) →
      containsKey ts (firstFreeFrom ts fuel i) = false ∧
      ∀ m, i ≤ m → m < firstFreeFrom ts fuel i → containsKey ts m = true := by
  intro fuel
  induction fuel with
  | zero =>
    intro i ⟨j, h1, h2, _⟩
    omega
  | succ fuel ih =>
    intro i ⟨j, h1, h2, hfree⟩
    by_cases hc : containsKey ts i = true
    · have hji : j ≠ i := by
        intro hh
        rw [hh] at hfree
        rw [hfree] at hc
        exact Bool.false_ne_true hc
      have hnext : ∃ j, i + 1 ≤ j ∧ j < (i + 1) + fuel ∧ containsKey ts j = false :=
        ⟨j, by omega, by omega, hfree⟩
      have hrec := ih (i + 1) hnext
      rw [firstFreeFrom, if_pos hc]
      refine ⟨hrec.1, fun m hm1 hm2 => ?_⟩
      by_cases hmi : m = i
      · rw [hmi]; exact hc
      · exact hrec.2 m (by omega) hm2
    · rw [firstFreeFrom, if_neg hc]
      refine ⟨by simpa using hc, fun m hm1 hm2 => ?_⟩
      omega

theorem exists_free_le_length (ts : List (Nat × Task)) :
    ∃ j, j ≤ ts.length ∧ containsKey ts j = false := by
  by_contra hcon
  push_neg at hcon
  have hall : ∀ j, j ≤ ts.length → containsKey ts j = true := by
    intro j hj
    have := hcon j hj
    cases hb : containsKey ts j with
    | false => exact absurd hb this
    | true => rfl
  have hsub : Finset.range (ts.length + 1) ⊆ (ts.map Prod.fst).toFinset := by
    intro j hj
    rw [Finset.mem_range] at hj
    have hc := hall j (by omega)
    unfold containsKey at hc
    rw [List.any_eq_true] at hc
    obtain ⟨p, hp, hpk⟩ := hc
    rw [beq_iff_eq] at hpk
    rw [List.mem_toFinset, List.mem_map]
    exact ⟨p, hp, hpk⟩
  have hcard := Finset.card_le_card hsub
  rw [Finset.card_range] at hcard
  have hle := List.toFinset_card_le (ts.map Prod.fst)
  rw [List.length_map] at hle
  omega

/-- The id chosen by `add` is free, and every smaller id is taken: it is the
smallest unused non-negative integer. -/
theorem firstFreeId_spec (ts : List (Nat × Task)) :
    containsKey ts (firstFreeId ts) = false ∧
    ∀ m, m < firstFreeId ts → containsKey ts m = true := by
  obtain ⟨j, hj, hfree⟩ := exists_free_le_length ts
  have h := firstFreeFrom_spec ts (ts.length + 1) 0 ⟨j, by omega, by omega, hfree⟩
  exact ⟨h.1, fun m hm => h.2 m (by omega) hm⟩

/-! ### The encoded file after quote removal, and its brace split -/

theorem goodDesc_spec {s : List Char} (h : goodDesc s = true) :
    ∀ c ∈ s, isBrace c = false ∧ (c == ',') = false ∧ (c == ':') = false := by
  intro c hc
  have h2 := List.all_eq_true.mp h c hc
  simp only [Bool.and_eq_true, Bool.not_eq_true'] at h2
  exact ⟨h2.1.1, h2.1.2, h2.2⟩

theorem mem_removeQuotes {s : List Char} {c : Char} (h : c ∈ removeQuotes s) : c ∈ s :=
  List.mem_of_mem_filter h

theorem statusStr_props (st : Status) :
    ∀ c ∈ statusStr st, isWS c = false ∧ isBrace c = false ∧
      (c == ',') = false ∧ (c == ':') = false := by
  cases st <;> decide

theorem statusStr_ne_nil (st : Status) : statusStr st ≠ [] := by
  cases st <;> decide

theorem removeQuotes_append (a b : List Char) :
    removeQuotes (a ++ b) = removeQuotes a ++ removeQuotes b := by
  unfold removeQuotes
  rw [List.filter_append]

theorem removeQuotes_statusStr (st : Status) :
    removeQuotes (statusStr st) = statusStr st := by
  cases st <;> decide

theorem removeQuotes_taskStr (t : Task) :
    removeQuotes (taskStr t) = '\n' :: (bodyCore t ++ ['\n']) := by
  have l1 : removeQuotes ("\n\x22id\x22:".toList) = '\n' :: "id:".toList := by decide
  have l2 : removeQuotes (",\n\x22description\x22: \x22".toList) =
      ",\ndescription: ".toList := by decide
  have l3 : removeQuotes ("\x22,\n\x22status\x22: \x22".toList) = ",\nstatus: ".toList := by
    decide
  have l4 : removeQuotes ("\x22,\n\x22created_at\x22: ".toList) =
      ",\ncreated_at: ".toList := by decide
  have l5 : removeQuotes (",\n\x22updated_at\x22: ".toList) =
      ",\nupdated_at: ".toList := by decide
  have l6 : removeQuotes ("\n".toList) = "\n".toList := by decide
  unfold taskStr bodyCore
  simp only [removeQuotes_append, l1, l2, l3, l4, l5, l6, removeQuotes_natStr,
    removeQuotes_statusStr]
  simp

theorem removeQuotes_recordsStr (ts : List (Nat × Task)) :
    removeQuotes (recordsStr ts) = recordsQF ts := by
  induction ts with
  | nil => rfl
  | cons p rest ih =>
    obtain ⟨k, t⟩ := p
    have l1 : removeQuotes ("\n\x22".toList) = "\n".toList := by decide
    have l2 : removeQuotes ("\x22 : \x7b ".toList) = " : \x7b ".toList := by decide
    have l3 : removeQuotes (" \x7d".toList) = " \x7d".toList := by decide
    have l4 : removeQuotes ("\n".toList) = "\n".toList := by decide
    have l5 : removeQuotes (",\n".toList) = ",\n".toList := by decide
    unfold recordsStr recordsQF
    simp only [removeQuotes_append, l1, l2, l3, removeQuotes_natStr,
      removeQuotes_taskStr, ih, apply_ite removeQuotes, l4, l5]

theorem removeQuotes_encodeFile (ts : List (Nat × Task)) :
    removeQuotes (encodeFile ts) =
      "\x7b\n tasks: \x7b ".toList ++ recordsQF ts ++ " \x7d \n \x7d\n".toList := by
  have l1 : removeQuotes ("\x7b\n \x22tasks\x22: \x7b ".toList) =
      "\x7b\n tasks: \x7b ".toList := by decide
  have l2 : removeQuotes (" \x7d \n \x7d\n".toList) = " \x7d \n \x7d\n".toList := by decide
  unfold encodeFile
  rw [removeQuotes_append, removeQuotes_append, l1, l2, removeQuotes_recordsStr]

theorem bodyCore_notBrace {t : Task} (hdesc : goodDesc t.description = true) :
    ∀ c ∈ bodyCore t, isBrace c = false := by
  unfold bodyCore
  simp only [List.forall_mem_append, and_assoc]
  exact ⟨by decide, fun c h => natStr_notBrace _ c h, by decide,
    fun c h => (goodDesc_spec hdesc c (mem_removeQuotes h)).1, by decide,
    fun c h => (statusStr_props _ c h).2.1, by decide,
    fun c h => natStr_notBrace _ c h, by decide,
    fun c h => natStr_notBrace _ c h⟩

theorem split_recordsQF (ts : List (Nat × Task))
    (hgood : ∀ p ∈ ts, goodDesc p.2.description = true) :
    ∀ pre, (∀ c ∈ pre, isBrace c = false) →
      splitOnPred isBrace (pre ++ recordsQF ts ++ " \x7d \n \x7d\n".toList) =
        rawSegs pre ts := by
  induction ts with
  | nil =>
    intro pre hpre
    rw [recordsQF]
    have e1 : pre ++ [] ++ " \x7d \n \x7d\n".toList =
        (pre ++ [' ']) ++ '\x7d' :: (" \n ".toList ++ '\x7d' :: "\n".toList) := by
      simp
    rw [e1, splitOnPred_chunk (by
        simp only [List.forall_mem_append, and_assoc]
        exact ⟨hpre, by decide⟩) (by decide),
      splitOnPred_chunk (by decide) (by decide),
      splitOnPred_all_notsep (by decide)]
    rfl
  | cons p rest ih =>
    intro pre hpre
    obtain ⟨k, t⟩ := p
    rw [recordsQF]
    have e1 : pre ++ ("\n".toList ++ natStr k ++ " : \x7b ".toList ++
        ('\n' :: (bodyCore t ++ ['\n'])) ++ " \x7d".toList ++
        (if rest.isEmpty then "\n".toList else ",\n".toList) ++ recordsQF rest) ++
        " \x7d \n \x7d\n".toList =
        (pre ++ "\n".toList ++ natStr k ++ " : ".toList) ++ '\x7b' ::
          ((" \n".toList ++ bodyCore t ++ "\n ".toList) ++ '\x7d' ::
            ((if rest.isEmpty then "\n".toList else ",\n".toList) ++ recordsQF rest ++
              " \x7d \n \x7d\n".toList)) := by
      have h1 : " : \x7b ".toList = " : ".toList ++ '\x7b' :: [' '] := by decide
      have h2 : " \x7d".toList = [' '] ++ '\x7d' :: [] := by decide
      rw [h1, h2]
      simp
    have hkeyseg : ∀ c ∈ pre ++ "\n".toList ++ natStr k ++ " : ".toList,
        isBrace c = false := by
      simp only [List.forall_mem_append, and_assoc]
      exact ⟨hpre, by decide, fun c h => natStr_notBrace _ c h, by decide⟩
    have hbodyseg : ∀ c ∈ " \n".toList ++ bodyCore t ++ "\n ".toList,
        isBrace c = false := by
      simp only [List.forall_mem_append, and_assoc]
      exact ⟨by decide, bodyCore_notBrace (hgood (k, t) (by simp)), by decide⟩
    rw [e1, splitOnPred_chunk hkeyseg (by decide), splitOnPred_chunk hbodyseg (by decide),
      ih (fun p hp => hgood p (by simp [hp])) _ (by
        by_cases hr : rest.isEmpty <;> simp [hr] <;> decide)]
    rw [rawSegs]

/-! ### Cleaning the raw segments -/

theorem trimLeft_sublist_length {cs : List Char} : (trimLeft cs).length ≤ cs.length :=
  (List.dropWhile_sublist _).length_le

theorem trimLeft_self_append {xs : List Char} (h : trimLeft xs = xs) (hne : xs ≠ [])
    (ys : List Char) : trimLeft (xs ++ ys) = xs ++ ys := by
  cases xs with
  | nil => exact absurd rfl hne
  | cons c cs =>
    have hc : isWS c = false := by
      by_contra hcc
      rw [Bool.not_eq_false] at hcc
      rw [trimLeft_cons_of_ws hcc] at h
      have hlen : (trimLeft cs).length ≤ cs.length := trimLeft_sublist_length
      rw [h] at hlen
      simp at hlen
    rw [List.cons_append, trimLeft_cons_of_notWS hc]

theorem mem_trimRight {s : List Char} {c : Char} (h : c ∈ trimRight s) : c ∈ s := by
  unfold trimRight at h
  rw [List.mem_reverse] at h
  have hsub := List.dropWhile_sublist (l := s.reverse) (p := isWS)
  have := hsub.mem h  -- hmm placeholder
  simpa using this

theorem bodyCore_assoc (t : Task) :
    bodyCore t = "id:".toList ++ (natStr t.id ++ (",\ndescription: ".toList ++
      (removeQuotes t.description ++ (",\nstatus: ".toList ++ (statusStr t.status ++
      (",\ncreated_at: ".toList ++ (natStr t.created_at ++
      (",\nupdated_at: ".toList ++ natStr t.updated_at)))))))) := by
  unfold bodyCore
  simp [List.append_assoc]

theorem trimLeft_bodyCore (t : Task) : trimLeft (bodyCore t) = bodyCore t := by
  rw [bodyCore_assoc]
  exact trimLeft_self_append (by decide) (by decide) _

theorem trimRight_bodyCore (t : Task) : trimRight (bodyCore t) = bodyCore t := by
  unfold bodyCore
  exact trimRight_append_of_notWS (natStr_ne_nil _) (natStr_notWS _)

theorem bodyCore_ne_nil (t : Task) : bodyCore t ≠ [] := by
  rw [bodyCore_assoc]
  simp

theorem dropRightColon_bodyCore (t : Task) :
    dropRightWhileChar ':' (bodyCore t) = bodyCore t := by
  unfold bodyCore dropRightWhileChar
  exact revDrop_append_of_neg (natStr_ne_nil _) (fun c hc => natStr_notColon _ c hc)

theorem cleanSeg_body (t : Task) :
    cleanSeg (" \n".toList ++ bodyCore t ++ "\n ".toList) = bodyCore t := by
  unfold cleanSeg
  have h1 : trim (" \n".toList ++ bodyCore t ++ "\n ".toList) = bodyCore t := by
    rw [List.append_assoc]
    exact trim_sandwich (by decide) (by decide) (trimLeft_bodyCore t) (trimRight_bodyCore t)
  rw [h1, dropRightColon_bodyCore]
  unfold trim
  rw [trimRight_bodyCore, trimLeft_bodyCore]

theorem trimRight_key_raw (pre : List Char) (k : Nat) :
    trimRight (pre ++ "\n".toList ++ natStr k ++ " : ".toList) =
      pre ++ "\n".toList ++ natStr k ++ [' ', ':'] := by
  have e1 : pre ++ "\n".toList ++ natStr k ++ " : ".toList =
      ((pre ++ "\n".toList ++ natStr k ++ [' ']) ++ [':']) ++ [' '] := by
    have h : " : ".toList = ([' '] ++ [':']) ++ [' '] := by decide
    rw [h]
    simp
  rw [e1, trimRight_append]
  have h2 : trimRight [' '] = [] := by decide
  rw [h2, if_pos rfl,
    trimRight_append_of_notWS (by simp) (by intro c hc; simp at hc; rw [hc]; rfl)]
  simp

theorem cleanSeg_key_first (k : Nat) :
    cleanSeg (" ".toList ++ "\n".toList ++ natStr k ++ " : ".toList) = natStr k := by
  have hA : trim (" ".toList ++ "\n".toList ++ natStr k ++ " : ".toList) =
      natStr k ++ [' ', ':'] := by
    unfold trim
    rw [trimRight_key_raw]
    have hws : ∀ c ∈ " ".toList ++ "\n".toList, isWS c = true := by decide
    have h1 : " ".toList ++ "\n".toList ++ natStr k ++ [' ', ':'] =
        (" ".toList ++ "\n".toList) ++ (natStr k ++ [' ', ':']) := by simp
    rw [h1, trimLeft_append_of_ws hws, trimLeft_natStr_append]
  have hB : dropRightWhileChar ':' (natStr k ++ [' ', ':']) = natStr k ++ [' '] := by
    have h2 : natStr k ++ [' ', ':'] = (natStr k ++ [' ']) ++ [':'] := by simp
    unfold dropRightWhileChar
    rw [h2, revDrop_append_sep (by decide)]
    exact revDrop_append_of_neg (by simp)
      (by intro c hc; simp at hc; rw [hc]; rfl)
  have hC : trim (natStr k ++ [' ']) = natStr k := by
    unfold trim
    rw [trimRight_append]
    have h3 : trimRight [' '] = [] := by decide
    rw [h3, if_pos rfl, trimRight_of_notWS (natStr_notWS k), trimLeft_of_notWS (natStr_notWS k)]
  unfold cleanSeg
  rw [hA, hB, hC]

theorem cleanSeg_key_later (k : Nat) :
    cleanSeg (",\n".toList ++ "\n".toList ++ natStr k ++ " : ".toList) =
      ",\n\n".toList ++ natStr k := by
  have hA : trim (",\n".toList ++ "\n".toList ++ natStr k ++ " : ".toList) =
      (",\n\n".toList ++ natStr k) ++ [' ', ':'] := by
    unfold trim
    rw [trimRight_key_raw]
    have e1 : ",\n".toList ++ "\n".toList ++ natStr k ++ [' ', ':'] =
        ',' :: ("\n\n".toList ++ (natStr k ++ [' ', ':'])) := by
      have h : ",\n".toList ++ "\n".toList = ',' :: "\n\n".toList := by decide
      rw [show ",\n".toList ++ "\n".toList ++ natStr k ++ [' ', ':'] =
        (",\n".toList ++ "\n".toList) ++ (natStr k ++ [' ', ':']) by simp, h]
      simp
    rw [e1, trimLeft_cons_of_notWS (by decide)]
    simp
  have hB : dropRightWhileChar ':' ((",\n\n".toList ++ natStr k) ++ [' ', ':']) =
      (",\n\n".toList ++ natStr k) ++ [' '] := by
    have h2 : (",\n\n".toList ++ natStr k) ++ [' ', ':'] =
        ((",\n\n".toList ++ natStr k) ++ [' ']) ++ [':'] := by simp
    unfold dropRightWhileChar
    rw [h2, revDrop_append_sep (by decide)]
    exact revDrop_append_of_neg (by simp)
      (by intro c hc; simp at hc; rw [hc]; rfl)
  have hC : trim ((",\n\n".toList ++ natStr k) ++ [' ']) = ",\n\n".toList ++ natStr k := by
    unfold trim
    rw [trimRight_append]
    have h3 : trimRight [' '] = [] := by decide
    rw [h3, if_pos rfl,
      trimRight_append_of_notWS (natStr_ne_nil k) (natStr_notWS k)]
    exact trimLeft_self_append (by decide) (by decide) _
  unfold cleanSeg
  rw [hA, hB, hC]

theorem not_isEmpty_of_ne_nil {s : List Char} (h : s ≠ []) : (!s.isEmpty) = true := by
  cases s with
  | nil => exact absurd rfl h
  | cons c cs => rfl

theorem cleanFilter_rawSegs :
    ∀ (ts : List (Nat × Task)) (pre : List Char) (first : Bool),
      ((first = true ∧ pre = " ".toList) ∨
       (first = false ∧ pre = ",\n".toList ∧ ts ≠ []) ∨
       (first = false ∧ pre = "\n".toList ∧ ts = [])) →
      ((rawSegs pre ts).map cleanSeg).filter (fun s => !s.isEmpty) = walkSegs first ts := by
  intro ts
  induction ts with
  | nil =>
    intro pre first h
    rcases h with ⟨hf, hp⟩ | ⟨hf, hp, hne⟩ | ⟨hf, hp, hnil⟩
    · subst hf; subst hp; decide
    · exact absurd rfl hne
    · subst hf; subst hp; decide
  | cons p rest ih =>
    intro pre first h
    obtain ⟨k, t⟩ := p
    have hkey : cleanSeg (pre ++ "\n".toList ++ natStr k ++ " : ".toList) =
        keySeg first k := by
      rcases h with ⟨hf, hp⟩ | ⟨hf, hp, _⟩ | ⟨hf, hp, hnil⟩
      · subst hf; subst hp
        rw [cleanSeg_key_first]
        rfl
      · subst hf; subst hp
        rw [cleanSeg_key_later]
        rfl
      · exact absurd hnil (by simp)
    have hkeyne : keySeg first k ≠ [] := by
      unfold keySeg
      cases first
      · simp
      · simp [natStr_ne_nil k]
    rw [rawSegs, List.map_cons, List.map_cons, List.filter_cons, List.filter_cons,
      hkey, cleanSeg_body, not_isEmpty_of_ne_nil hkeyne,
      not_isEmpty_of_ne_nil (bodyCore_ne_nil t)]
    simp only [if_pos]
    rw [walkSegs]
    congr 1
    congr 1
    by_cases hr : rest = []
    · subst hr
      exact ih _ false (Or.inr (Or.inr ⟨rfl, by simp, rfl⟩))
    · have : rest.isEmpty = false := by
        cases rest with
        | nil => exact absurd rfl hr
        | cons a b => rfl
      rw [this]
      exact ih _ false (Or.inr (Or.inl ⟨rfl, by simp, hr⟩))

theorem segmentsOf_encodeFile (ts : List (Nat × Task))
    (hgood : ∀ p ∈ ts, goodDesc p.2.description = true) :
    segmentsOf (encodeFile ts) = "tasks".toList :: walkSegs true ts := by
  unfold segmentsOf
  rw [removeQuotes_encodeFile]
  have e1 : "\x7b\n tasks: \x7b ".toList ++ recordsQF ts ++ " \x7d \n \x7d\n".toList =
      '\x7b' :: ("\n tasks: ".toList ++ '\x7b' ::
        (" ".toList ++ recordsQF ts ++ " \x7d \n \x7d\n".toList)) := by
    have h1 : "\x7b\n tasks: \x7b ".toList =
        '\x7b' :: ("\n tasks: ".toList ++ '\x7b' :: " ".toList) := by decide
    rw [show "\x7b\n tasks: \x7b ".toList ++ recordsQF ts ++ " \x7d \n \x7d\n".toList =
      "\x7b\n tasks: \x7b ".toList ++ (recordsQF ts ++ " \x7d \n \x7d\n".toList) by simp, h1]
    simp
  rw [e1, splitOnPred_cons_sep (by decide), splitOnPred_append_nosep (by decide),
    splitOnPred_cons_sep (by decide), split_recordsQF ts hgood _ (by decide)]
  rw [show consHead "\n tasks: ".toList ([] :: rawSegs " ".toList ts) =
    "\n tasks: ".toList :: rawSegs " ".toList ts from by simp [consHead]]
  rw [List.map_cons, List.map_cons, List.filter_cons, List.filter_cons]
  have h2 : cleanSeg [] = [] := by decide
  have h3 : cleanSeg ("\n tasks: ".toList) = "tasks".toList := by decide
  rw [h2, h3]
  simp only [List.isEmpty_nil, Bool.not_true, if_neg (by simp : ¬ (false = true))]
  rw [not_isEmpty_of_ne_nil (by decide : ("tasks".toList : List Char) ≠ [])]
  simp only [if_pos]
  rw [cleanFilter_rawSegs ts _ true (Or.inl ⟨rfl, rfl⟩)]

/-! ### Parsing the cleaned segments back -/

theorem keyOf_keySeg {k : Nat} (hk : k < 2 ^ 32) (first : Bool) :
    keyOf (keySeg first k) = some k := by
  cases first
  · -- later key segment: ",\n\n" ++ digits
    unfold keySeg keyOf trimMatchesChar
    rw [if_neg (by simp)]
    have e1 : ",\n\n".toList ++ natStr k = ',' :: ('\n' :: ('\n' :: natStr k)) := by
      have h : ",\n\n".toList = ',' :: '\n' :: '\n' :: [] := by decide
      rw [h]
      simp
    rw [e1, List.dropWhile_cons, if_pos (by decide), List.dropWhile_cons,
      if_neg (by decide)]
    rw [show '\n' :: ('\n' :: natStr k) = ['\n', '\n'] ++ natStr k from by simp,
      revDrop_append_of_neg (natStr_ne_nil k) (fun c hc => natStr_notComma k c hc)]
    have h2 : trim (['\n', '\n'] ++ natStr k) = natStr k := by
      unfold trim
      rw [trimRight_append_of_notWS (natStr_ne_nil k) (natStr_notWS k),
        trimLeft_append_of_ws (by decide), trimLeft_of_notWS (natStr_notWS k)]
    rw [h2]
    exact parseU32_natStr hk
  · -- first key segment: bare digits
    unfold keySeg keyOf trimMatchesChar
    rw [if_pos rfl]
    rw [dropWhile_all_false (fun c hc => natStr_notComma k c hc),
      dropWhile_all_false (fun c hc => natStr_notComma k c (by simpa using hc)),
      List.reverse_reverse, trim_natStr]
    exact parseU32_natStr hk

theorem trimRight_cons_space_of_notWS {v : List Char} (hne : v ≠ [])
    (h : ∀ c ∈ v, isWS c = false) : trimRight (' ' :: v) = ' ' :: v := by
  rw [show ' ' :: v = [' '] ++ v from rfl]
  exact trimRight_append_of_notWS hne h

theorem colonField_labeled {lbl val : List Char} (hne : lbl ≠ [])
    (hl : ∀ c ∈ lbl, isWS c = false ∧ (c == ':') = false)
    (hval : ∀ c ∈ val, (c == ':') = false) :
    colonField ('\n' :: (lbl ++ ':' :: ' ' :: val)) = some (trimRight (' ' :: val)) := by
  have htr : trim ('\n' :: (lbl ++ ':' :: ' ' :: val)) =
      lbl ++ ':' :: trimRight (' ' :: val) := by
    unfold trim
    have e1 : '\n' :: (lbl ++ ':' :: ' ' :: val) =
        ('\n' :: (lbl ++ [':'])) ++ (' ' :: val) := by simp
    rw [e1, trimRight_append]
    have htl : trimRight ('\n' :: (lbl ++ [':'])) = '\n' :: (lbl ++ [':']) := by
      rw [show '\n' :: (lbl ++ [':']) = ('\n' :: lbl) ++ [':'] from by simp]
      exact trimRight_append_of_notWS (by simp) (by intro c hc; simp at hc; rw [hc]; rfl)
    by_cases hw : trimRight (' ' :: val) = []
    · rw [if_pos hw, hw, htl, trimLeft_cons_of_ws (by decide)]
      rw [trimLeft_self_append (trimLeft_of_notWS fun c hc => (hl c hc).1) hne]
    · rw [if_neg hw, show ('\n' :: (lbl ++ [':'])) ++ trimRight (' ' :: val) =
        '\n' :: ((lbl ++ [':']) ++ trimRight (' ' :: val)) from by simp,
        trimLeft_cons_of_ws (by decide),
        show (lbl ++ [':']) ++ trimRight (' ' :: val) =
          lbl ++ (':' :: trimRight (' ' :: val)) from by simp,
        trimLeft_self_append (trimLeft_of_notWS fun c hc => (hl c hc).1) hne]
  unfold colonField
  rw [htr, splitOnPred_chunk (fun c hc => (hl c hc).2) (by decide),
    splitOnPred_all_notsep (by
      intro c hc
      have hcv : c ∈ ' ' :: val := by
        have := mem_trimRight hc
        exact this
      rcases List.mem_cons.mp hcv with h1 | h1
      · rw [h1]; rfl
      · exact hval c h1)]
  rfl

theorem colonField_id (n : Nat) : colonField ("id:".toList ++ natStr n) = some (natStr n) := by
  unfold colonField
  have htr : trim ("id:".toList ++ natStr n) = "id:".toList ++ natStr n := by
    unfold trim
    rw [trimRight_append_of_notWS (natStr_ne_nil n) (natStr_notWS n)]
    exact trimLeft_self_append (by decide) (by decide) _
  rw [htr, show "id:".toList ++ natStr n = "id".toList ++ ':' :: natStr n from by
      have h : "id:".toList = "id".toList ++ [':'] := by decide
      rw [h]; simp,
    splitOnPred_chunk (by decide) (by decide),
    splitOnPred_all_notsep (fun c hc => natStr_notColon n c hc)]
  rfl

theorem parseStatus_statusStr (st : Status) : parseStatus (statusStr st) = st := by
  cases st <;> decide

theorem trim_statusStr (st : Status) : trim (statusStr st) = statusStr st :=
  trim_of_notWS fun c hc => (statusStr_props st c hc).1

/-- The comma-separated parts of `bodyCore`. -/
theorem splitComma_bodyCore (t : Task) (hdesc : goodDesc t.description = true) :
    splitOnPred (fun c => c == ',') (bodyCore t) =
      ["id:".toList ++ natStr t.id,
       '\n' :: ("description".toList ++ ':' :: ' ' :: removeQuotes t.description),
       '\n' :: ("status".toList ++ ':' :: ' ' :: statusStr t.status),
       '\n' :: ("created_at".toList ++ ':' :: ' ' :: natStr t.created_at),
       '\n' :: ("updated_at".toList ++ ':' :: ' ' :: natStr t.updated_at)] := by
  have e1 : bodyCore t = ("id:".toList ++ natStr t.id) ++ ',' ::
      (('\n' :: ("description".toList ++ ':' :: ' ' :: removeQuotes t.description)) ++ ',' ::
      (('\n' :: ("status".toList ++ ':' :: ' ' :: statusStr t.status)) ++ ',' ::
      (('\n' :: ("created_at".toList ++ ':' :: ' ' :: natStr t.created_at)) ++ ',' ::
      ('\n' :: ("updated_at".toList ++ ':' :: ' ' :: natStr t.updated_at))))) := by
    unfold bodyCore
    have l2 : ",\ndescription: ".toList = ',' :: '\n' :: ("description".toList ++ [':', ' ']) := by
      decide
    have l3 : ",\nstatus: ".toList = ',' :: '\n' :: ("status".toList ++ [':', ' ']) := by decide
    have l4 : ",\ncreated_at: ".toList = ',' :: '\n' :: ("created_at".toList ++ [':', ' ']) := by
      decide
    have l5 : ",\nupdated_at: ".toList = ',' :: '\n' :: ("updated_at".toList ++ [':', ' ']) := by
      decide
    rw [l2, l3, l4, l5]
    simp
  have hid : ∀ c ∈ "id:".toList ++ natStr t.id, (c == ',') = false := by
    simp only [List.forall_mem_append, and_assoc]
    exact ⟨by decide, fun c hc => natStr_notComma _ c hc⟩
  have hdesc2 : ∀ c ∈ '\n' :: ("description".toList ++ ':' :: ' ' ::
      removeQuotes t.description), (c == ',') = false := by
    intro c hc
    rcases List.mem_cons.mp hc with h1 | h1
    · rw [h1]; rfl
    · rcases List.mem_append.mp h1 with h2 | h2
      · exact (by decide : ∀ x ∈ "description".toList, (x == ',') = false) c h2
      · rcases List.mem_cons.mp h2 with h3 | h3
        · rw [h3]; rfl
        · rcases List.mem_cons.mp h3 with h4 | h4
          · rw [h4]; rfl
          · exact (goodDesc_spec hdesc c (mem_removeQuotes h4)).2.1
  have hst : ∀ c ∈ '\n' :: ("status".toList ++ ':' :: ' ' :: statusStr t.status),
      (c == ',') = false := by
    intro c hc
    rcases List.mem_cons.mp hc with h1 | h1
    · rw [h1]; rfl
    · rcases List.mem_append.mp h1 with h2 | h2
      · exact (by decide : ∀ x ∈ "status".toList, (x == ',') = false) c h2
      · rcases List.mem_cons.mp h2 with h3 | h3
        · rw [h3]; rfl
        · rcases List.mem_cons.mp h3 with h4 | h4
          · rw [h4]; rfl
          · exact (statusStr_props _ c h4).2.2.1
  have hca : ∀ c ∈ '\n' :: ("created_at".toList ++ ':' :: ' ' :: natStr t.created_at),
      (c == ',') = false := by
    intro c hc
    rcases List.mem_cons.mp hc with h1 | h1
    · rw [h1]; rfl
    · rcases List.mem_append.mp h1 with h2 | h2
      · exact (by decide : ∀ x ∈ "created_at".toList, (x == ',') = false) c h2
      · rcases List.mem_cons.mp h2 with h3 | h3
        · rw [h3]; rfl
        · rcases List.mem_cons.mp h3 with h4 | h4
          · rw [h4]; rfl
          · exact natStr_notComma _ c h4
  have hua : ∀ c ∈ '\n' :: ("updated_at".toList ++ ':' :: ' ' :: natStr t.updated_at),
      (c == ',') = false := by
    intro c hc
    rcases List.mem_cons.mp hc with h1 | h1
    · rw [h1]; rfl
    · rcases List.mem_append.mp h1 with h2 | h2
      · exact (by decide : ∀ x ∈ "updated_at".toList, (x == ',') = false) c h2
      · rcases List.mem_cons.mp h2 with h3 | h3
        · rw [h3]; rfl
        · rcases List.mem_cons.mp h3 with h4 | h4
          · rw [h4]; rfl
          · exact natStr_notComma _ c h4
  rw [e1, splitOnPred_chunk hid (by decide), splitOnPred_chunk hdesc2 (by decide),
    splitOnPred_chunk hst (by decide), splitOnPred_chunk hca (by decide),
    splitOnPred_all_notsep hua]

theorem parseBody_bodyCore (kid : Nat) (t : Task) (hid : t.id < 2 ^ 32)
    (hca : t.created_at < 2 ^ 64) (hua : t.updated_at < 2 ^ 64)
    (hdesc : goodDesc t.description = true) :
    parseBody kid (bodyCore t) =
      some (⟨kid, trim (removeQuotes t.description), t.status, t.created_at, t.updated_at⟩,
        kid != t.id) := by
  have hf0 := colonField_id t.id
  have hf1 : colonField ('\n' :: ("description".toList ++ ':' :: ' ' ::
      removeQuotes t.description)) = some (trimRight (' ' :: removeQuotes t.description)) :=
    colonField_labeled (by decide) (by decide)
      (fun c hc => (goodDesc_spec hdesc c (mem_removeQuotes hc)).2.2)
  have hf2 : colonField ('\n' :: ("status".toList ++ ':' :: ' ' :: statusStr t.status)) =
      some (' ' :: statusStr t.status) := by
    rw [colonField_labeled (by decide) (by decide)
        (fun c hc => (statusStr_props _ c hc).2.2.2),
      trimRight_cons_space_of_notWS (statusStr_ne_nil _)
        (fun c hc => (statusStr_props _ c hc).1)]
  have hf3 : colonField ('\n' :: ("created_at".toList ++ ':' :: ' ' :: natStr t.created_at)) =
      some (' ' :: natStr t.created_at) := by
    rw [colonField_labeled (by decide) (by decide) (fun c hc => natStr_notColon _ c hc),
      trimRight_cons_space_of_notWS (natStr_ne_nil _) (natStr_notWS _)]
  have hf4 : colonField ('\n' :: ("updated_at".toList ++ ':' :: ' ' :: natStr t.updated_at)) =
      some (' ' :: natStr t.updated_at) := by
    rw [colonField_labeled (by decide) (by decide) (fun c hc => natStr_notColon _ c hc),
      trimRight_cons_space_of_notWS (natStr_ne_nil _) (natStr_notWS _)]
  have hmap : mapColonFields (splitOnPred (fun c => c == ',') (bodyCore t)) =
      some [natStr t.id, trimRight (' ' :: removeQuotes t.description),
        ' ' :: statusStr t.status, ' ' :: natStr t.created_at,
        ' ' :: natStr t.updated_at] := by
    rw [splitComma_bodyCore t hdesc]
    simp only [mapColonFields, hf0, hf1, hf2, hf3, hf4, Option.bind_eq_bind,
      Option.some_bind, Option.pure_def]
  have hdesc3 : trim (trimRight (' ' :: removeQuotes t.description)) =
      trim (removeQuotes t.description) := by
    rw [trim_trimRight, trim_cons_of_ws (by decide)]
  unfold parseBody
  rw [hmap]
  simp only [Option.bind_eq_bind, Option.some_bind, List.get?]
  rw [hdesc3, parseU32_trim_natStr hid]
  simp only [Option.some_bind]
  rw [show trim (' ' :: statusStr t.status) = statusStr t.status from by
      rw [trim_cons_of_ws (by decide), trim_statusStr],
    parseStatus_statusStr,
    show trim (' ' :: natStr t.created_at) = natStr t.created_at from by
      rw [trim_cons_of_ws (by decide), trim_natStr],
    show trim (' ' :: natStr t.updated_at) = natStr t.updated_at from by
      rw [trim_cons_of_ws (by decide), trim_natStr],
    parseU64_natStr hca, parseU64_natStr hua]
  rfl

/-! ### The full decode of an encoded store -/

theorem decodeLoop_walkSegs (ts : List (Nat × Task)) :
    ∀ (first : Bool) (acc : List (Nat × Task)) (out : List Output),
      (∀ p ∈ ts, goodEntry p) →
      (∀ p ∈ ts, containsKey acc p.1 = false) →
      (ts.map Prod.fst).Nodup →
      decodeLoop (walkSegs first ts) acc out =
        some (acc ++ ts.map (fun p => (p.1, decodedTask p.1 p.2)), out ++ mismatchOuts ts) := by
  induction ts with
  | nil =>
    intro first acc out _ _ _
    simp [walkSegs, decodeLoop, mismatchOuts]
  | cons p rest ih =>
    intro first acc out hgood hdisj hnodup
    obtain ⟨k, t⟩ := p
    have hg := hgood (k, t) (by simp)
    have hkey := keyOf_keySeg (k := k) hg.1 first
    have hbody := parseBody_bodyCore k t hg.2.1 hg.2.2.1 hg.2.2.2.1 hg.2.2.2.2
    have hnot : containsKey acc k = false := hdisj (k, t) (by simp)
    have hins := insertTask_append_of_not_mem acc k (decodedTask k t) hnot
    have hk_notin : k ∉ rest.map Prod.fst := by
      rw [List.map_cons, List.nodup_cons] at hnodup
      exact hnodup.1
    have hdisj2 : ∀ q ∈ rest, containsKey (acc ++ [(k, decodedTask k t)]) q.1 = false := by
      intro q hq
      rw [containsKey_append, hdisj q (by simp [hq]), Bool.false_or]
      have hne : ¬ (k = q.1) := by
        intro hh
        exact hk_notin (by rw [hh]; exact List.mem_map_of_mem Prod.fst hq)
      simp [containsKey, hne]
    have hbody2 : parseBody k (bodyCore t) = some (decodedTask k t, k != t.id) := by
      rw [hbody]
      rfl
    have hnodup2 : (rest.map Prod.fst).Nodup := by
      rw [List.map_cons, List.nodup_cons] at hnodup
      exact hnodup.2
    rw [walkSegs]
    simp only [decodeLoop, hkey, hbody2, Option.bind_eq_bind, Option.some_bind]
    rw [hins, ih false _ _ (fun q hq => hgood q (by simp [hq])) hdisj2 hnodup2,
      mismatchOuts]
    simp

theorem decode_encode (ts : List (Nat × Task)) (hgood : ∀ p ∈ ts, goodEntry p)
    (hnodup : (ts.map Prod.fst).Nodup) :
    query_task_file (some (encodeFile ts)) =
      some (⟨ts.map (fun p => (p.1, decodedTask p.1 p.2)), false⟩, mismatchOuts ts) := by
  simp only [query_task_file]
  rw [segmentsOf_encodeFile ts (fun p hp => (hgood p hp).2.2.2.2)]
  rw [show ("tasks".toList :: walkSegs true ts).tail = walkSegs true ts from rfl]
  rw [decodeLoop_walkSegs ts true [] [] hgood (fun p hp => rfl) hnodup]
  simp

/-! ### Malformed numeric fields are fatal -/

theorem decodeLoop_none_of_badNumeric :
    ∀ (segs : List (List Char)) (acc : List (Nat × Task)) (out : List Output),
      badNumeric segs = true → decodeLoop segs acc out = none
  | [], _, _, h => by simp [badNumeric] at h
  | [k], acc, out, h => by
    rw [badNumeric] at h
    cases hk : keyOf k with
    | none => simp [decodeLoop, hk]
    | some kid => rw [hk] at h; simp at h
  | k :: b :: rest', acc, out, h => by
    rw [badNumeric] at h
    cases hk : keyOf k with
    | none => simp [decodeLoop, hk]
    | some kid =>
      rw [hk] at h
      simp only [Option.isNone_some, Bool.false_eq_true, if_false] at h
      simp only [decodeLoop, hk, Option.bind_eq_bind, Option.some_bind]
      cases hmap : mapColonFields (splitOnPred (fun c => c == ',') b) with
      | none => rw [hmap] at h; simp at h
      | some tp =>
        rw [hmap] at h
        dsimp only at h
        cases h0 : tp.get? 0 with
        | none => rw [h0] at h; simp at h
        | some f0 =>
        cases h1 : tp.get? 1 with
        | none => rw [h0, h1] at h; simp at h
        | some f1 =>
        cases h2 : tp.get? 2 with
        | none => rw [h0, h1, h2] at h; simp at h
        | some f2 =>
        cases h3 : tp.get? 3 with
        | none => rw [h0, h1, h2, h3] at h; simp at h
        | some f3 =>
        cases h4 : tp.get? 4 with
        | none => rw [h0, h1, h2, h3, h4] at h; simp at h
        | some f4 =>
        rw [h0, h1, h2, h3, h4] at h
        dsimp only at h
        by_cases hbad : ((parseU32 (trim f0)).isNone || (parseU64 (trim f3)).isNone ||
            (parseU64 (trim f4)).isNone) = true
        · -- the failing field kills `parseBody`, hence the whole load
          have hpb : parseBody kid b = none := by
            unfold parseBody
            rw [hmap]
            simp only [Option.bind_eq_bind, Option.some_bind, h0, h1, h2, h3, h4]
            rcases Bool.or_eq_true_iff.mp hbad with hx | hx
            · rcases Bool.or_eq_true_iff.mp hx with hy | hy
              · cases hp : parseU32 (trim f0) with
                | none => simp
                | some v => rw [hp] at hy; simp at hy
              · cases hp0 : parseU32 (trim f0) with
                | none => simp
                | some v0 =>
                  cases hp : parseU64 (trim f3) with
                  | none => simp [hp0]
                  | some v => rw [hp] at hy; simp at hy
            · cases hp0 : parseU32 (trim f0) with
              | none => simp
              | some v0 =>
                cases hp3 : parseU64 (trim f3) with
                | none => simp [hp0]
                | some v3 =>
                  cases hp : parseU64 (trim f4) with
                  | none => simp [hp0, hp3]
                  | some v => rw [hp] at hx; simp at hx
          rw [hpb]
          rfl
        · rw [if_neg hbad] at h
          cases hpb : parseBody kid b with
          | none => rfl
          | some r =>
            obtain ⟨task, mism⟩ := r
            simp only [Option.some_bind]
            exact decodeLoop_none_of_badNumeric rest' _ _ h

/-- Claim C9: a store text whose decode walk meets a non-numeric (or
unrepresentable) numeric field — a key id, an embedded id, a `created_at`
or an `updated_at` — makes the whole load abort fatally: `query_task_file`
returns `none`, so no collection (in particular no partial one) is
produced. -/
theorem claim9_fatal_numeric (data : List Char)
    (h : badNumeric ((segmentsOf data).tail) = true) :
    query_task_file (some data) = none := by
  simp only [query_task_file]
  rw [decodeLoop_none_of_badNumeric _ [] [] h]
  rfl

/-! ### Claim C1: key id vs embedded id -/

/-- Claim C1 counterexample: a store whose record key is 3 but whose body
carries `id: 5` decodes — with a diagnostic and without a fatal error — to a
task whose id is 3, the KEY id; no task with the embedded id 5 exists in the
result.  The claim said the embedded id (5) wins; the code keeps the key id. -/
theorem claim1_counterexample :
    query_task_file (some (encodeFile [(3, ⟨5, ['a'], Status.Todo, 1, 2⟩)])) =
      some (⟨[(3, ⟨3, ['a'], Status.Todo, 1, 2⟩)], false⟩, [Output.idMismatch]) ∧
    ([(3, (⟨3, ['a'], Status.Todo, 1, 2⟩ : Task))].any (fun p => p.2.id == 5)) = false := by
  constructor
  · rw [decode_encode [(3, ⟨5, ['a'], Status.Todo, 1, 2⟩)]
      (by intro p hp; simp at hp; rw [hp]; exact ⟨by norm_num, by norm_num, by norm_num,
        by norm_num, by decide⟩)
      (by simp)]
    decide
  · decide

/-- Claim C1 (amended): decoding a record whose key-segment id differs from
the embedded id surfaces the mismatch diagnostic and continues without a
fatal error, and the resulting collection contains a task whose id is the
KEY id, not the embedded id (the embedded id is only compared, then
discarded). -/
theorem claim1_mismatch_uses_key_id (k : Nat) (t : Task) (hgood : goodEntry (k, t))
    (hne : k ≠ t.id) :
    query_task_file (some (encodeFile [(k, t)])) =
      some (⟨[(k, decodedTask k t)], false⟩, [Output.idMismatch]) ∧
    (decodedTask k t).id = k := by
  constructor
  · rw [decode_encode [(k, t)] (by intro p hp; simp at hp; rw [hp]; exact hgood) (by simp)]
    simp [mismatchOuts, bne_iff_ne, hne]
  · rfl

/-- Claim C1 witness. -/
theorem claim1_witness :
    query_task_file (some (encodeFile [(3, ⟨5, ['b'], Status.Done, 7, 8⟩)])) =
      some (⟨[(3, decodedTask 3 ⟨5, ['b'], Status.Done, 7, 8⟩)], false⟩,
        [Output.idMismatch]) :=
  (claim1_mismatch_uses_key_id 3 ⟨5, ['b'], Status.Done, 7, 8⟩ (by decide) (by decide)).1

/-! ### Claim C2: the encode/decode round trip -/

theorem removeQuotes_of_noQuote {s : List Char} (h : noQuote s = true) :
    removeQuotes s = s := by
  unfold removeQuotes
  rw [List.filter_eq_self]
  exact List.all_eq_true.mp h

theorem mismatchOuts_eq_nil {ts : List (Nat × Task)} (h : KeysOk ts) :
    mismatchOuts ts = [] := by
  induction ts with
  | nil => rfl
  | cons p rest ih =>
    rw [mismatchOuts, h p (by simp), bne_self_eq_false]
    exact ih fun q hq => h q (by simp [hq])

/-- Claim C2 counterexample: the description `"a "` (trailing space) contains
no quote and no structural delimiter, yet the round trip returns `"a"` — the
decoder trims each field value, so the collection does not keep the same
description.  The claim needs the extra condition that descriptions carry no
leading/trailing whitespace. -/
theorem claim2_counterexample :
    goodDesc ['a', ' '] = true ∧ noQuote ['a', ' '] = true ∧
    query_task_file (some (encodeFile [(0, ⟨0, ['a', ' '], Status.Todo, 1, 2⟩)])) =
      some (⟨[(0, ⟨0, ['a'], Status.Todo, 1, 2⟩)], false⟩, []) ∧
    (['a'] : List Char) ≠ ['a', ' '] := by
  refine ⟨by decide, by decide, ?_, by decide⟩
  rw [decode_encode [(0, ⟨0, ['a', ' '], Status.Todo, 1, 2⟩)] (by decide) (by simp)]
  decide

/-- Claim C2 (amended): for every non-empty Task Collection whose
descriptions contain no double quote, no structural delimiter, and no
leading/trailing whitespace, decoding the encoder's output yields exactly
the same collection — same ids, descriptions, statuses and timestamps —
with the dirty flag cleared and no diagnostics. -/
theorem claim2_roundtrip (ts : List (Nat × Task)) (_hne : ts ≠ [])
    (hnodup : (ts.map Prod.fst).Nodup)
    (hgood : ∀ p ∈ ts, goodEntry p)
    (hq : ∀ p ∈ ts, noQuote p.2.description = true)
    (htrim : ∀ p ∈ ts, trim p.2.description = p.2.description)
    (hkeys : KeysOk ts) :
    query_task_file (some (encodeFile ts)) = some (⟨ts, false⟩, []) := by
  rw [decode_encode ts hgood hnodup]
  have h1 : ts.map (fun p => (p.1, decodedTask p.1 p.2)) = ts := by
    have h2 : ∀ p ∈ ts, (p.1, decodedTask p.1 p.2) = id p := by
      intro p hp
      have hd : decodedTask p.1 p.2 = p.2 := by
        unfold decodedTask
        rw [removeQuotes_of_noQuote (hq p hp), htrim p hp, ← hkeys p hp]
      rw [hd, id]
    rw [List.map_congr_left h2, List.map_id]
  rw [h1, mismatchOuts_eq_nil hkeys]

/-- Claim C2 witness: a concrete two-task collection round-trips exactly. -/
theorem claim2_witness :
    query_task_file (some (encodeFile
      [(0, ⟨0, "alpha".toList, Status.Todo, 10, 20⟩),
       (1, ⟨1, "beta two".toList, Status.Done, 30, 40⟩)])) =
      some (⟨[(0, ⟨0, "alpha".toList, Status.Todo, 10, 20⟩),
        (1, ⟨1, "beta two".toList, Status.Done, 30, 40⟩)], false⟩, []) :=
  claim2_roundtrip _ (by decide) (by decide) (by decide) (by decide) (by decide) (by decide)

/-! ### Claim C5: lossy quoting -/

/-- Claim C5 counterexample: for the description `a "` (which contains a
double quote and no structural delimiter), the round trip yields `a`, not
the quote-stripped `a ` — the decoder also trims the field, so "only the
quotes are removed" fails when the quote-stripped text has leading or
trailing whitespace. -/
theorem claim5_counterexample :
    removeQuotes ['a', ' ', '\x22'] = ['a', ' '] ∧
    query_task_file (some (encodeFile [(0, ⟨0, ['a', ' ', '\x22'], Status.Todo, 1, 2⟩)])) =
      some (⟨[(0, ⟨0, ['a'], Status.Todo, 1, 2⟩)], false⟩, []) ∧
    (['a'] : List Char) ≠ ['a', ' '] := by
  refine ⟨by decide, ?_, by decide⟩
  rw [decode_encode [(0, ⟨0, ['a', ' ', '\x22'], Status.Todo, 1, 2⟩)] (by decide) (by simp)]
  decide

/-- Claim C5 (amended): a task whose description contains double quotes but
no structural delimiter round-trips to the same task with every double quote
removed from the description — provided the quote-stripped description has
no leading/trailing whitespace (otherwise it is additionally trimmed); all
other fields come back unchanged. -/
theorem claim5_quote_stripping (t : Task) (hgood : goodEntry (t.id, t))
    (_hquote : '\x22' ∈ t.description)
    (htrim : trim (removeQuotes t.description) = removeQuotes t.description) :
    query_task_file (some (encodeFile [(t.id, t)])) =
      some (⟨[(t.id, ⟨t.id, removeQuotes t.description, t.status, t.created_at,
        t.updated_at⟩)], false⟩, []) := by
  rw [decode_encode [(t.id, t)] (by intro p hp; simp at hp; rw [hp]; exact hgood) (by simp)]
  have hk : KeysOk [(t.id, t)] := by
    intro p hp
    simp at hp
    rw [hp]
  rw [mismatchOuts_eq_nil hk]
  simp only [List.map_cons, List.map_nil]
  unfold decodedTask
  rw [htrim]

/-- Claim C5 witness: `He said "hi"` round-trips to `He said hi`. -/
theorem claim5_witness :
    query_task_file (some (encodeFile
      [(0, ⟨0, "He said \x22hi\x22".toList, Status.Todo, 1, 2⟩)])) =
      some (⟨[(0, ⟨0, removeQuotes ("He said \x22hi\x22".toList), Status.Todo, 1, 2⟩)],
        false⟩, []) :=
  claim5_quote_stripping ⟨0, "He said \x22hi\x22".toList, Status.Todo, 1, 2⟩
    (by decide) (by decide) (by decide)

/-! ### Claims C3, C4, C6, C7, C8, C10 -/

/-- Claim C3: the id assigned by `add` is the smallest non-negative integer
not currently used as a key — it is free, every smaller id is taken, and the
new task is stored under it; in particular, after creating ids 0, 1, 2 and
deleting id 1, the next `add` assigns id 1. -/
theorem claim3_smallest_free_id (h : TaskHandler) (d : List Char) (now : Nat) :
    containsKey h.tasks (firstFreeId h.tasks) = false ∧
    (∀ m, m < firstFreeId h.tasks → containsKey h.tasks m = true) ∧
    getTask ((h.add d now).1).tasks (firstFreeId h.tasks) =
      some ⟨firstFreeId h.tasks, d, Status.Todo, now, now⟩ ∧
    (h.add d now).2 = [Output.taskAdded (firstFreeId h.tasks)] ∧
    (let h1 := ((⟨[], false⟩ : TaskHandler).add ['a'] 10).1
     let h2 := (h1.add ['b'] 11).1
     let h3 := (h2.add ['c'] 12).1
     let h4 := (h3.delete 1).1
     firstFreeId h4.tasks = 1 ∧ (h4.add ['d'] 13).2 = [Output.taskAdded 1]) := by
  refine ⟨(firstFreeId_spec h.tasks).1, (firstFreeId_spec h.tasks).2, ?_, rfl, by decide⟩
  unfold TaskHandler.add
  exact getTask_insert_self h.tasks (firstFreeId h.tasks) _

/-- Claim C4: the store file is rewritten iff the dirty flag is set.
Loading (whether the file exists or not) always returns the flag cleared;
`add` always sets it; `update`, `mark_in_progress`, `mark_done` and `delete`
set it when the id exists; and a `list` invocation leaves the collection
untouched and ends with no file write. -/
theorem claim4_dirty_flag :
    (∀ file r, query_task_file file = some r → r.1.updated = false) ∧
    (∀ (h : TaskHandler) d now, ((h.add d now).1).updated = true) ∧
    (∀ (h : TaskHandler) id d now, containsKey h.tasks id = true →
      ((h.update id d now).1).updated = true) ∧
    (∀ (h : TaskHandler) id now, containsKey h.tasks id = true →
      ((h.mark_in_progress id now).1).updated = true) ∧
    (∀ (h : TaskHandler) id now, containsKey h.tasks id = true →
      ((h.mark_done id now).1).updated = true) ∧
    (∀ (h : TaskHandler) id, containsKey h.tasks id = true →
      ((h.delete id).1).updated = true) ∧
    (∀ file h out f now, query_task_file file = some (h, out) →
      mainRun file (Cmd.listCmd f) now = some (h, out ++ h.list f, none)) := by
  have hload : ∀ file r, query_task_file file = some r → r.1.updated = false := by
    intro file r hq
    cases file with
    | none =>
      simp only [query_task_file, Option.some_inj] at hq
      rw [← hq]
    | some data =>
      simp only [query_task_file] at hq
      cases hd : decodeLoop (segmentsOf data).tail [] [] with
      | none => rw [hd] at hq; simp at hq
      | some r2 =>
        rw [hd] at hq
        obtain ⟨ts2, out2⟩ := r2
        simp only [Option.bind_eq_bind, Option.some_bind, Option.pure_def,
          Option.some_inj] at hq
        rw [← hq]
  have hsome : ∀ (h : TaskHandler) id, containsKey h.tasks id = true →
      ∃ t, getTask h.tasks id = some t := by
    intro h id hc
    rw [containsKey_eq_isSome] at hc
    cases hg : getTask h.tasks id with
    | none => rw [hg] at hc; simp at hc
    | some t => exact ⟨t, rfl⟩
  refine ⟨hload, fun h d now => rfl, ?_, ?_, ?_, ?_, ?_⟩
  · intro h id d now hc
    obtain ⟨t, hg⟩ := hsome h id hc
    unfold TaskHandler.update
    rw [hg]
  · intro h id now hc
    obtain ⟨t, hg⟩ := hsome h id hc
    unfold TaskHandler.mark_in_progress
    rw [hg]
  · intro h id now hc
    obtain ⟨t, hg⟩ := hsome h id hc
    unfold TaskHandler.mark_done
    rw [hg]
  · intro h id hc
    unfold TaskHandler.delete
    rw [hc]
    rfl
  · intro file h out f now hq
    unfold mainRun
    rw [hq]
    have hu : h.updated = false := hload file (h, out) hq
    simp only [Option.bind_eq_bind, Option.some_bind, dispatch, hu, Option.pure_def,
      Bool.false_eq_true, if_false]

/-- Claim C4 witness. -/
theorem claim4_witness :
    mainRun none (Cmd.listCmd none) 0 =
      some (⟨[], false⟩, [] ++ TaskHandler.list ⟨[], false⟩ none, none) ∧
    (((⟨[], false⟩ : TaskHandler).add ['a'] 5).1).updated = true ∧
    (((⟨[(2, ⟨2, ['a'], Status.Todo, 0, 0⟩)], false⟩ : TaskHandler).delete 2).1).updated
      = true :=
  ⟨claim4_dirty_flag.2.2.2.2.2.2 none ⟨[], false⟩ [] none 0 rfl,
   claim4_dirty_flag.2.1 ⟨[], false⟩ ['a'] 5,
   claim4_dirty_flag.2.2.2.2.2.1 ⟨[(2, ⟨2, ['a'], Status.Todo, 0, 0⟩)], false⟩ 2 (by decide)⟩

/-- Claim C6: the decoder's status mapping sends `todo`, `in-progress` and
`done` to the three statuses and every other text — the empty string
included — silently to `Todo`; the mapping is total, so a status field value
never causes a decode error. -/
theorem claim6_status_mapping :
    parseStatus ("todo".toList) = Status.Todo ∧
    parseStatus ("in-progress".toList) = Status.InProgress ∧
    parseStatus ("done".toList) = Status.Done ∧
    parseStatus [] = Status.Todo ∧
    ∀ s : List Char, s ≠ "todo".toList → s ≠ "in-progress".toList → s ≠ "done".toList →
      parseStatus s = Status.Todo := by
  refine ⟨by decide, by decide, by decide, by decide, ?_⟩
  intro s h1 h2 h3
  unfold parseStatus
  rw [if_neg h1, if_neg h2, if_neg h3]

/-- Claim C6 witness. -/
theorem claim6_witness : parseStatus ("DONE".toList) = Status.Todo :=
  claim6_status_mapping.2.2.2.2 ("DONE".toList) (by decide) (by decide) (by decide)

/-- Claim C7: updating an existing id replaces that task's description and
sets its `updated_at` to now, keeps its id, status and `created_at`, and
leaves every other id's entry exactly as it was. -/
theorem claim7_update_frame (h : TaskHandler) (n : Nat) (d : List Char) (now : Nat)
    (t : Task) (hget : getTask h.tasks n = some t) (hid : t.id = n) :
    getTask ((h.update n d now).1).tasks n =
      some ⟨t.id, d, t.status, t.created_at, now⟩ ∧
    ∀ j, j ≠ n → getTask ((h.update n d now).1).tasks j = getTask h.tasks j := by
  unfold TaskHandler.update
  rw [hget]
  constructor
  · rw [hid]
    exact getTask_insert_self h.tasks n _
  · intro j hj
    exact getTask_insert_ne h.tasks n j _ hj

/-- Claim C7 witness. -/
theorem claim7_witness :
    getTask (((⟨[(0, ⟨0, ['a'], Status.Done, 1, 2⟩), (1, ⟨1, ['c'], Status.Todo, 3, 4⟩)],
        false⟩ : TaskHandler).update 0 ['b'] 9).1).tasks 0 =
      some ⟨0, ['b'], Status.Done, 1, 9⟩ :=
  (claim7_update_frame ⟨[(0, ⟨0, ['a'], Status.Done, 1, 2⟩),
    (1, ⟨1, ['c'], Status.Todo, 3, 4⟩)], false⟩ 0 ['b'] 9
    ⟨0, ['a'], Status.Done, 1, 2⟩ (by decide) (by decide)).1

/-- Claim C8: `update`, `mark_in_progress`, `mark_done` and `delete` on an
id that is not present only print a message: the handler — collection and
dirty flag — is returned exactly unchanged, and nothing is fatal. -/
theorem claim8_not_found (h : TaskHandler) (n : Nat) (d : List Char) (now : Nat)
    (hget : getTask h.tasks n = none) :
    h.update n d now = (h, [Output.taskNotAvailable n]) ∧
    h.mark_in_progress n now = (h, [Output.taskNotAvailable n]) ∧
    h.mark_done n now = (h, [Output.taskNotAvailable n]) ∧
    h.delete n = (h, [Output.taskDeleteFailed n]) := by
  have hck : containsKey h.tasks n = false := by
    rw [containsKey_eq_isSome, hget]
    rfl
  refine ⟨?_, ?_, ?_, ?_⟩
  · unfold TaskHandler.update
    rw [hget]
  · unfold TaskHandler.mark_in_progress
    rw [hget]
  · unfold TaskHandler.mark_done
    rw [hget]
  · unfold TaskHandler.delete
    rw [hck]
    rfl

/-- Claim C8 witness. -/
theorem claim8_witness :
    (⟨[(0, ⟨0, ['a'], Status.Todo, 1, 2⟩)], false⟩ : TaskHandler).delete 7 =
      (⟨[(0, ⟨0, ['a'], Status.Todo, 1, 2⟩)], false⟩, [Output.taskDeleteFailed 7]) :=
  (claim8_not_found ⟨[(0, ⟨0, ['a'], Status.Todo, 1, 2⟩)], false⟩ 7 [] 0 (by decide)).2.2.2

theorem parseBody_task_id {kid : Nat} {b : List Char} {task : Task} {m : Bool}
    (h : parseBody kid b = some (task, m)) : task.id = kid := by
  unfold parseBody at h
  simp only [Option.bind_eq_bind, Option.bind_eq_some, Option.pure_def,
    Option.some_inj] at h
  obtain ⟨tp, _, f0, _, f1, _, f2, _, f3, _, f4, _, i0, _, c0, _, u0, _, heq⟩ := h
  rw [Prod.mk.injEq] at heq
  rw [← heq.1]

theorem decodeLoop_KeysOk :
    ∀ (segs : List (List Char)) (acc : List (Nat × Task)) (out : List Output)
      (r : List (Nat × Task) × List Output),
      KeysOk acc → decodeLoop segs acc out = some r → KeysOk r.1
  | [], acc, out, r, hacc, h => by
    simp only [decodeLoop, Option.some_inj] at h
    rw [← h]
    exact hacc
  | [k], acc, out, r, hacc, h => by
    simp only [decodeLoop] at h
    cases hk : keyOf k with
    | none => rw [hk] at h; simp at h
    | some kid =>
      rw [hk] at h
      simp only [Option.bind_eq_bind, Option.some_bind, Option.pure_def,
        Option.some_inj] at h
      rw [← h]
      exact hacc
  | k :: b :: rest', acc, out, r, hacc, h => by
    simp only [decodeLoop] at h
    cases hk : keyOf k with
    | none => rw [hk] at h; simp at h
    | some kid =>
      rw [hk] at h
      simp only [Option.bind_eq_bind, Option.some_bind] at h
      cases hb : parseBody kid b with
      | none => rw [hb] at h; simp at h
      | some pr =>
        rw [hb] at h
        obtain ⟨task, mism⟩ := pr
        simp only [Option.some_bind] at h
        exact decodeLoop_KeysOk rest' _ _ r
          (KeysOk_insert hacc (parseBody_task_id hb)) h

/-- Claim C10: every operation that produces or mutates the collection —
decoding the store, `add`, `update`, `mark_in_progress`, `mark_done`,
`delete` — preserves the invariant that each map key equals the id stored
inside its task (decoding even establishes it from scratch). -/
theorem claim10_key_id_invariant :
    (∀ (file : Option (List Char)) r, query_task_file file = some r →
      KeysOk r.1.tasks) ∧
    (∀ (h : TaskHandler) d now, KeysOk h.tasks → KeysOk ((h.add d now).1).tasks) ∧
    (∀ (h : TaskHandler) n d now, KeysOk h.tasks → KeysOk ((h.update n d now).1).tasks) ∧
    (∀ (h : TaskHandler) n now, KeysOk h.tasks →
      KeysOk ((h.mark_in_progress n now).1).tasks) ∧
    (∀ (h : TaskHandler) n now, KeysOk h.tasks → KeysOk ((h.mark_done n now).1).tasks) ∧
    (∀ (h : TaskHandler) n, KeysOk h.tasks → KeysOk ((h.delete n).1).tasks) := by
  refine ⟨?_, ?_, ?_, ?_, ?_, ?_⟩
  · intro file r hq
    cases file with
    | none =>
      simp only [query_task_file, Option.some_inj] at hq
      rw [← hq]
      intro p hp
      simp at hp
    | some data =>
      simp only [query_task_file] at hq
      cases hd : decodeLoop (segmentsOf data).tail [] [] with
      | none => rw [hd] at hq; simp at hq
      | some r2 =>
        rw [hd] at hq
        obtain ⟨ts2, out2⟩ := r2
        simp only [Option.bind_eq_bind, Option.some_bind, Option.pure_def,
          Option.some_inj] at hq
        rw [← hq]
        exact decodeLoop_KeysOk _ [] [] (ts2, out2) (by intro p hp; simp at hp) hd
  · intro h d now hk
    unfold TaskHandler.add
    exact KeysOk_insert hk rfl
  · intro h n d now hk
    unfold TaskHandler.update
    cases hg : getTask h.tasks n with
    | none => exact hk
    | some t => exact KeysOk_insert hk rfl
  · intro h n now hk
    unfold TaskHandler.mark_in_progress
    cases hg : getTask h.tasks n with
    | none => exact hk
    | some t => exact KeysOk_insert hk rfl
  · intro h n now hk
    unfold TaskHandler.mark_done
    cases hg : getTask h.tasks n with
    | none => exact hk
    | some t => exact KeysOk_insert hk rfl
  · intro h n hk
    unfold TaskHandler.delete
    by_cases hc : containsKey h.tasks n = true
    · rw [hc]
      exact KeysOk_removeKey hk
    · rw [Bool.not_eq_true] at hc
      rw [hc]
      exact hk

/-- Claim C9 witness: a hand-crafted store whose `created_at` field holds
`xx` makes the whole load fatal, although the record is otherwise well
formed. -/
theorem claim9_witness :
    badNumeric ((segmentsOf ("\x7b\n \x22tasks\x22: \x7b \n\x220\x22 : \x7b \n\x22id\x22:0,\n\x22description\x22: \x22a\x22,\n\x22status\x22: \x22todo\x22,\n\x22created_at\x22: xx,\n\x22updated_at\x22: 5\n \x7d \n \x7d \n \x7d\n".toList)).tail) = true ∧
    query_task_file (some ("\x7b\n \x22tasks\x22: \x7b \n\x220\x22 : \x7b \n\x22id\x22:0,\n\x22description\x22: \x22a\x22,\n\x22status\x22: \x22todo\x22,\n\x22created_at\x22: xx,\n\x22updated_at\x22: 5\n \x7d \n \x7d \n \x7d\n".toList)) = none :=
  ⟨by decide, claim9_fatal_numeric _ (by decide)⟩

/-- Claim C10 witness. -/
theorem claim10_witness :
    KeysOk ((((⟨[], false⟩ : TaskHandler).add ['a'] 3).1).update 0 ['b'] 4).1.tasks :=
  claim10_key_id_invariant.2.2.1 ((⟨[], false⟩ : TaskHandler).add ['a'] 3).1 0 ['b'] 4
    (claim10_key_id_invariant.2.1 ⟨[], false⟩ ['a'] 3 (by decide))

end TaskTracker
